import Mathlib

/-!
# InstallerNCC (Mod Organizer plugin, `src/installerncc.cpp`)

A shallow embedding of the plugin's decision logic.  The operating system, the Qt
library and the host application are inputs of the model: every call the source makes
to them appears as a field of an environment structure or as an argument.
-/

namespace InstallerNCC

/-! ## Environment queried by the detection functions -/

/-- Constants declared in `installerncc.h`, which is not part of the source file: they
are parameters of the model. -/
structure Constants where
  PROBLEM_NCCMISSING : Nat
  PROBLEM_NCCINCOMPATIBLE : Nat
  PROBLEM_DOTNETINSTALLED : Nat
  COMPATIBLE_MAJOR_VERSION : Nat

/-- The two fields of the Windows `VS_FIXEDFILEINFO` record the source reads (both are
32-bit `DWORD`s). -/
structure VS_FIXEDFILEINFO where
  dwFileVersionMS : Nat
  dwFileVersionLS : Nat
  deriving DecidableEq, Repr

/-- Answers of the operating system and of Qt to the queries of the detection functions. -/
structure Env where
  /-- `QCoreApplication::applicationDirPath()` -/
  applicationDirPath : String
  /-- `QFile::exists(path)` -/
  fileExists : String → Bool
  /-- `QSettings(key, NativeFormat).value(name)`, `none` when the value is absent -/
  registryValue : String → String → Option Int
  /-- `GetFileVersionInfoSizeW(path)` -/
  versionInfoSize : String → Nat
  /-- `GetFileVersionInfoW(path, ...)` succeeded -/
  versionInfoRead : String → Bool
  /-- `VerQueryValue(buffer, "\\", ...)`, `none` when it fails -/
  verQueryValue : String → Option VS_FIXEDFILEINFO

/-- `getFileVersionInfo`: the three `throw std::runtime_error` exits are the `error`
results. -/
def getFileVersionInfo (env : Env) (path : String) : Except String VS_FIXEDFILEINFO :=
  if env.versionInfoSize path = 0 then
    .error "failed to determine file version info size"
  else if !env.versionInfoRead path then
    .error "failed to determine file version info"
  else
    match env.verQueryValue path with
    | none => .error "failed to determine file version"
    | some info => .ok info

/-- `InstallerNCC::nccPath` -/
def nccPath (env : Env) : String :=
  env.applicationDirPath ++ "/NCC/NexusClientCLI.exe"

/-- `InstallerNCC::isNCCInstalled` -/
def isNCCInstalled (env : Env) : Bool :=
  env.fileExists (nccPath env)

/-- `InstallerNCC::isNCCCompatible`: the `catch` branch returns `false`. -/
def isNCCCompatible (c : Constants) (env : Env) : Bool :=
  match getFileVersionInfo env (nccPath env) with
  | .ok temp => (temp.dwFileVersionMS &&& 0xFFFFFF) == c.COMPATIBLE_MAJOR_VERSION
  | .error _ => false

/-- Registry key read by `isDotNetInstalled`. -/
def dotNetKey : String :=
  "HKEY_LOCAL_MACHINE\\Software\\Microsoft\\NET Framework Setup\\NDP\\v3.5"

/-- `InstallerNCC::isDotNetInstalled`: `value("Install", 0) == 1`. -/
def isDotNetInstalled (env : Env) : Bool :=
  (env.registryValue dotNetKey "Install").getD 0 == 1

/-- `InstallerNCC::isActive` -/
def isActive (env : Env) : Bool :=
  isDotNetInstalled env && isNCCInstalled env

/-- `InstallerNCC::activeProblems` -/
def activeProblems (c : Constants) (env : Env) : List Nat :=
  if !isNCCInstalled env then
    [c.PROBLEM_NCCMISSING]
  else if !isNCCCompatible c env then
    [c.PROBLEM_NCCINCOMPATIBLE]
  else if !isDotNetInstalled env then
    [c.PROBLEM_DOTNETINSTALLED]
  else
    []

/-- `InstallerNCC::shortDescription`: the `switch` takes the first matching label, the
`default` label throws (`error`). -/
def shortDescription (c : Constants) (key : Nat) : Except String String :=
  if key = c.PROBLEM_NCCMISSING then
    .ok "NCC is not installed."
  else if key = c.PROBLEM_NCCINCOMPATIBLE then
    .ok "NCC Version may be incompatible."
  else if key = c.PROBLEM_DOTNETINSTALLED then
    .ok "dotNet is not installed or outdated."
  else
    .error ("invalid problem key " ++ toString key)

/-- `InstallerNCC::fullDescription` -/
def fullDescription (c : Constants) (key : Nat) : Except String String :=
  if key = c.PROBLEM_NCCMISSING then
    .ok ("NCC is not installed. You won\x27t be able to install some scripted mod-installers. "
      ++ "Get NCC from <a href=\"http://www.nexusmods.com/skyrim/mods/1334\">the MO page on nexus</a>.")
  else if key = c.PROBLEM_NCCINCOMPATIBLE then
    .ok ("NCC version may be incompatible, expected version 0."
      ++ toString c.COMPATIBLE_MAJOR_VERSION ++ ".x.x.")
  else if key = c.PROBLEM_DOTNETINSTALLED then
    let dotNetUrl := "http://www.microsoft.com/en-us/download/details.aspx?id=17851"
    .ok ("<li>dotNet is not installed or the wrong version. This is required to use NCC. "
      ++ "Get it from here: <a href=\"" ++ dotNetUrl ++ "\">" ++ dotNetUrl ++ "</a></li>")
  else
    .error ("invalid problem key " ++ toString key)

/-- Major part of a file version: the high 16 bits of `dwFileVersionMS`. -/
def majorVersion (ms : Nat) : Nat := ms >>> 16

/-- Minor part of a file version: the low 16 bits of `dwFileVersionMS`. -/
def minorVersion (ms : Nat) : Nat := ms &&& 0xFFFF

/-- An environment in which the NCC executable exists, its version resource is the
given one and the .NET 3.5 registry value is `install`. -/
def sampleEnv (info : Option VS_FIXEDFILEINFO) (install : Option Int) (ncc : Bool) : Env where
  applicationDirPath := "C:/MO"
  fileExists := fun p => ncc && p == "C:/MO/NCC/NexusClientCLI.exe"
  registryValue := fun k n => if k = dotNetKey ∧ n = "Install" then install else none
  versionInfoSize := fun _ => 1
  versionInfoRead := fun _ => true
  verQueryValue := fun _ => info


/-! ## Archive detection -/

/-- A directory of an archive: its name, its sub-directories (`nodes`) and the names of
its files (`leafs`). -/
inductive DirectoryTree where
  | node (name : String) (nodes : List DirectoryTree) (leafs : List String)

/-- `getData().name` -/
def DirectoryTree.name : DirectoryTree → String
  | .node n _ _ => n

/-- `nodesBegin() .. nodesEnd()` -/
def DirectoryTree.nodes : DirectoryTree → List DirectoryTree
  | .node _ ns _ => ns

/-- `leafsBegin() .. leafsEnd()` -/
def DirectoryTree.leafs : DirectoryTree → List String
  | .node _ _ ls => ls

/-- The first loop of `isArchiveSupported`: some sub-directory compares equal to "fomod"
and has a file that compares equal to "ModuleConfig.xml" or "script.cs".  The equality
of `FileNameString` is declared outside the source file and is the parameter `eqName`. -/
def hasFomodScript (eqName : String → String → Bool) (tree : DirectoryTree) : Bool :=
  tree.nodes.any fun dir =>
    eqName dir.name "fomod" &&
      dir.leafs.any fun file => eqName file "ModuleConfig.xml" || eqName file "script.cs"

/-- `InstallerNCC::isArchiveSupported(const DirectoryTree&)` -/
def isArchiveSupported (eqName : String → String → Bool) : DirectoryTree → Bool
  | .node name nodes leafs =>
    if hasFomodScript eqName (.node name nodes leafs) then true
    else
      -- recurse into single directories
      match nodes, leafs with
      | [node], [] => isArchiveSupported eqName node
      | _, _ => false

/-- One link of a wrapper chain: `a` has no files and `b` is its only sub-directory. -/
def SingleWrapper (a b : DirectoryTree) : Prop :=
  a.nodes = [b] ∧ a.leafs = []

/-! ## The wait loop of `invokeNCC` -/

/-- Return value of `WaitForSingleObject`. -/
inductive WaitResult where
  | WAIT_OBJECT_0
  | WAIT_TIMEOUT
  /-- any other value (`WAIT_FAILED`, `WAIT_ABANDONED`) -/
  | other (code : Nat)
  deriving DecidableEq, Repr

/-- What one iteration of the loop observes. -/
structure Poll where
  /-- `EnumWindows(BringToFront, procid)` failed with last error `NOERROR` -/
  broughtToFront : Bool
  /-- `WaitForSingleObject(execInfo.hProcess, 100)` -/
  res : WaitResult
  /-- `busyDialog.wasCanceled()` -/
  wasCanceled : Bool
  deriving DecidableEq, Repr

/-- Local variables of the loop and the text of the dialog's cancel button. -/
structure LoopState where
  confirmCancel : Bool
  finished : Bool
  inFront : Bool
  cancelButtonText : String
  deriving DecidableEq, Repr

/-- State on entry of the loop: the dialog is created with the button "Force Close". -/
def LoopState.init : LoopState :=
  { confirmCancel := false, finished := false, inFront := false, cancelButtonText := "Force Close" }

/-- Body of `while (!finished)`; the second component is `true` when the body leaves
through `break`. -/
def loopBody (s : LoopState) (p : Poll) : LoopState × Bool :=
  let s := if !s.inFront && p.broughtToFront then { s with inFront := true } else s
  if p.res = .WAIT_OBJECT_0 then
    ({ s with finished := true }, false)
  else if p.wasCanceled || p.res != .WAIT_TIMEOUT then
    if !s.confirmCancel then
      ({ s with confirmCancel := true, cancelButtonText := "Confirm" }, false)
    else
      (s, true)
  else
    (s, false)

/-- The loop over the observations of successive iterations.  `none`: the observations
are used up and the loop is still running. -/
def waitLoop : LoopState → List Poll → Option LoopState
  | s, [] => if s.finished then some s else none
  | s, p :: ps =>
    if s.finished then some s
    else
      let r := loopBody s p
      if r.2 then some r.1 else waitLoop r.1 ps

/-- An iteration that asks for cancellation: the wait did not report the exit of the
process, and the dialog was cancelled or the wait returned something else than timeout. -/
def Poll.cancelObserved (p : Poll) : Bool :=
  p.res != .WAIT_OBJECT_0 && (p.wasCanceled || p.res != .WAIT_TIMEOUT)

/-- An iteration in which nothing happens: timeout and no cancel. -/
def Poll.idle (p : Poll) : Bool :=
  p.res != .WAIT_OBJECT_0 && !p.cancelObserved

/-! ## Command line of the external tool -/

/-- `std::wstring`: a sequence of wide characters. -/
abbrev WString := List Char

/-- Windows constant `MAX_PATH`. -/
def MAX_PATH : Nat := 260

/-- `%d` applied to a non-negative `int`. -/
def formatInt (n : Nat) : WString := (Nat.repr n).toList

/-- `InstallerNCC::getSEVersion`: `"%d.%d.%d"` of the low word of `dwFileVersionMS` and
the two words of `dwFileVersionLS`; a throw of `getFileVersionInfo` passes through. -/
def getSEVersion (env : Env) (seloader : String) : Except String WString :=
  match getFileVersionInfo env seloader with
  | .error e => .error e
  | .ok version =>
    .ok (formatInt (version.dwFileVersionMS &&& 0xFFFF) ++ ['.']
      ++ formatInt (version.dwFileVersionLS >>> 16) ++ ['.']
      ++ formatInt (version.dwFileVersionLS &&& 0xFFFF))

/-- The `%ls` arguments of the formatting call at lines 226-233, as they reach it (after
Qt's `cleanPath` and `toNativeSeparators`), and the script extender of the game. -/
structure CommandLineInputs where
  gameShortName : WString
  profilePath : WString
  gameDirectory : WString
  overwritePath : WString
  archiveName : WString
  modPath : WString
  /-- `extender->loaderPath()` when `extender != nullptr && extender->isInstalled()` -/
  extenderLoader : Option String

/-- The local `seString` of `invokeNCC` (lines 216-224). -/
def seString (env : Env) (inp : CommandLineInputs) : Except String WString :=
  match inp.extenderLoader with
  | none => .ok []
  | some loader =>
    match getSEVersion env loader with
    | .error e => .error e
    | .ok seVersion =>
      if !seVersion.isEmpty then .ok ("-se \"".toList ++ seVersion ++ "\"".toList) else .ok []

/-- The text the format string of line 226 produces from its seven arguments. -/
def formatParameters (inp : CommandLineInputs) (se : WString) : WString :=
  "-g ".toList ++ inp.gameShortName
    ++ " -p \"".toList ++ inp.profilePath
    ++ "\" -gd \"".toList ++ inp.gameDirectory
    ++ "\" -d \"".toList ++ inp.overwritePath
    ++ "\" ".toList ++ se
    ++ " -i \"".toList ++ inp.archiveName
    ++ "\" \"".toList ++ inp.modPath ++ "\"".toList

/-- Number of elements of `wchar_t parameters[1024]`. -/
def parametersCapacity : Nat := 1024

/-- `sizeof(wchar_t)` on Windows, the only platform of the Win32 calls of the source. -/
def sizeof_wchar_t : Nat := 2

/-- `sizeof(parameters)`, the count the source passes to `_snwprintf`: the size of the
array in bytes. -/
def sizeofParameters : Nat := parametersCapacity * sizeof_wchar_t

/-- Number of wide characters `_snwprintf(buffer, count, ...)` stores into the buffer:
the whole text and a terminating null when the text is shorter than `count`, the first
`count` characters otherwise. -/
def snwprintfStored (count : Nat) (text : WString) : Nat :=
  if text.length < count then text.length + 1 else count

/-- Wide characters stored into `parameters` by line 226. -/
def parametersStored (inp : CommandLineInputs) (se : WString) : Nat :=
  snwprintfStored sizeofParameters (formatParameters inp se)

/-- A path of 250 characters: `C:\` followed by 247 letters. -/
def longPath : WString := "C:\\".toList ++ List.replicate 247 'a'

/-- Command-line inputs in which the five paths have 250 characters each and the game
has no script extender. -/
def longInputs : CommandLineInputs where
  gameShortName := "Skyrim".toList
  profilePath := longPath
  gameDirectory := longPath
  overwritePath := longPath
  archiveName := longPath
  modPath := longPath
  extenderLoader := none

/-! ## `install` -/

/-- The values of `IPluginInstaller::EInstallResult` the source uses. -/
inductive EInstallResult where
  | RESULT_SUCCESS
  | RESULT_FAILED
  | RESULT_CANCELED
  deriving DecidableEq, Repr

/-- The attributes of a mod that `install` reads or sets through `IModInterface`. -/
structure ModInterface where
  name : String
  absolutePath : String
  installationFile : String
  version : String
  nexusID : Int
  deriving DecidableEq, Repr

/-- `QString::split` with a one-character separator (empty parts are kept). -/
def splitChars (sep : Char) : List Char → List (List Char)
  | [] => [[]]
  | c :: cs =>
    if c = sep then [] :: splitChars sep cs
    else
      match splitChars sep cs with
      | [] => [[c]]
      | part :: parts => (c :: part) :: parts

/-- `QString(...).split("\n")` -/
def splitLines (contents : String) : List String :=
  (splitChars '\n' contents.toList).map String.mk

/-- A comparison that folds the case of the basic Latin letters only; it stands for
Qt's comparison in `sampleHost`. -/
def differsLatinCase (a b : String) : Bool :=
  a.toList.map Char.toLower != b.toList.map Char.toLower

/-- Services of the host and of Qt that `install` calls. -/
structure Host where
  /-- `m_MOInfo->createMod(modName)`, `none` for `nullptr` -/
  createMod : String → Option ModInterface
  /-- `m_MOInfo->getMod(name) != nullptr` -/
  getMod : String → Bool
  /-- `QFileInfo(archiveName).fileName()` -/
  fileName : String → String
  /-- value of the `GuessedValue` after `update(candidate, GUESS_META)` -/
  guessUpdate : String → String → String
  /-- `QString::toInt` -/
  toInt : String → Int
  /-- `QString::compare(a, b, Qt::CaseInsensitive) != 0` -/
  differsCaseInsensitive : String → String → Bool
  /-- contents of `__installInfo.txt` in the mod directory after the run, `none` when
  the file cannot be opened -/
  installInfo : ModInterface → Option String

/-- What `install` returns and does. -/
structure InstallOutcome where
  /-- the value `install` returns, or (`error`) the exception by which it is left -/
  result : Except String EInstallResult
  /-- `invokeNCC` was called -/
  nccInvoked : Bool
  /-- the mod created by the host, with its attributes on return -/
  mod : Option ModInterface
  /-- the in-out argument `modName` on return -/
  modName : String
  /-- `modInterface->remove()` was called -/
  removeCalled : Bool
  /-- `QFile::remove` was called on `__installInfo.txt` -/
  infoFileRemoved : Bool

/-- Lines 385-387 of `install`: the three setters called on the new mod. -/
def prepareMod (host : Host) (created : ModInterface) (archiveName version : String)
    (modID : Int) : ModInterface :=
  { created with
    installationFile := host.fileName archiveName, version := version, nexusID := modID }

/-- A host that creates a mod of the guessed name, knows no other mod, takes every
proposed name, reads numbers digit by digit and finds the given text in
`__installInfo.txt`. -/
def sampleHost (contents : Option String) : Host where
  createMod := fun name => some
    { name := name, absolutePath := "C:/MO/mods/" ++ name, installationFile := "",
      version := "", nexusID := 0 }
  getMod := fun _ => false
  fileName := fun path => path
  guessUpdate := fun _ candidate => candidate
  toInt := fun text => text.toList.foldl (fun acc c => 10 * acc + ((c.toNat : Int) - 48)) 0
  differsCaseInsensitive := differsLatinCase
  installInfo := fun _ => contents

/-- Lines 399-410 of `install`: the three fields of `__installInfo.txt` applied to the
mod; the second component is `modName` after its update. -/
def applyInstallInfo (host : Host) (modName : String) (modInterface : ModInterface)
    (data0 data1 data2 : String) : ModInterface × String :=
  let modName := host.guessUpdate modName data0
  let newName := modName
  let m1 :=
    if host.differsCaseInsensitive modName modInterface.name && !host.getMod newName then
      { modInterface with name := modName }
    else modInterface
  let m2 := if data1.length > 0 then { m1 with version := data1 } else m1
  let m3 := if data2.length > 0 then { m2 with nexusID := host.toInt data2 } else m2
  (m3, modName)

/-- Lines 393-412 of `install` ("post process mod directory"): the mod and `modName`
afterwards, and whether `__installInfo.txt` was opened (and then removed). -/
def postProcess (host : Host) (modName : String) (modInterface : ModInterface) :
    ModInterface × String × Bool :=
  match host.installInfo modInterface with
  | none => (modInterface, modName, false)
  | some contents =>
    match splitLines contents with
    | [data0, data1, data2] =>
      let r := applyInstallInfo host modName modInterface data0 data1 data2
      (r.1, r.2, true)
    | _ => (modInterface, modName, true)

/-- `InstallerNCC::install`; `invoke` is the call of `invokeNCC` at line 389, which
returns a result or (`error`) lets through the `std::runtime_error` of `getSEVersion`
(line 220).  Neither `invokeNCC` nor `install` catches it, so `install` is left by the
same exception before line 391. -/
def install (host : Host) (invoke : ModInterface → String → Except String EInstallResult)
    (modName archiveName version : String) (modID : Int) : InstallOutcome :=
  match host.createMod modName with
  | none =>
    { result := .ok .RESULT_CANCELED, nccInvoked := false, mod := none, modName := modName,
      removeCalled := false, infoFileRemoved := false }
  | some created =>
    let modInterface := prepareMod host created archiveName version modID
    match invoke modInterface archiveName with
    | .error what =>
      { result := .error what, nccInvoked := true, mod := some modInterface, modName := modName,
        removeCalled := false, infoFileRemoved := false }
    | .ok res =>
      if res = .RESULT_SUCCESS then
        let r := postProcess host modName modInterface
        { result := .ok res, nccInvoked := true, mod := some r.1, modName := r.2.1,
          removeCalled := false, infoFileRemoved := r.2.2 }
      else
        { result := .ok res, nccInvoked := true, mod := some modInterface, modName := modName,
          removeCalled := true, infoFileRemoved := false }

/-! ## Running the external tool and reconciling the mod directory -/

/-- A path inside the mod directory, as the list of its components below
`modInterface->absolutePath()`. -/
abbrev Path := List String

/-- The file-system calls of `invokeNCC` over a file-system state `σ`.  Every call
returns the new state and whether it succeeded. -/
structure FileSystem (σ : Type) where
  /-- `QFile::copy` of a file of the game directory to the same name in the mod directory -/
  copyGameFile : σ → String → σ × Bool
  /-- names that `QDirIterator(dir, Dirs | Files | NoDotAndDotDot)` yields -/
  entryList : σ → Path → List String
  /-- `QFileInfo::isFile` -/
  isFile : σ → Path → Bool
  /-- `QFile::exists` -/
  fileExists : σ → Path → Bool
  /-- `QFile::remove` -/
  remove : σ → Path → σ × Bool
  /-- `QFile::rename` -/
  rename : σ → Path → Path → σ × Bool
  /-- `copyDir(source, destination, true)` -/
  copyDir : σ → Path → Path → σ × Bool
  /-- `shellDelete(list)` -/
  shellDelete : σ → List Path → σ × Bool

/-- Calls of `reportError`. -/
inductive Report where
  /-- "failed to start %1" -/
  | failedToStart
  /-- "Finalization of the installation failed. ..." -/
  | finalizationFailed
  /-- "installation failed (errorcode %1)" -/
  | installationFailed (exitCode : Nat)
  /-- "Failed to clean up after NCC installation, ..." -/
  | cleanupFailed
  deriving DecidableEq, Repr

/-- Body of the loop at lines 332-351 for the entry `name` of the Data directory; the
Boolean is `errorOccured`. -/
def moveEntry {σ : Type} (ops : FileSystem σ) (acc : σ × Bool) (name : String) : σ × Bool :=
  let newName : Path := [name]
  let acc1 :=
    if ops.isFile acc.1 ["Data", name] && ops.fileExists acc.1 newName then
      let r := ops.remove acc.1 newName
      (r.1, acc.2 || !r.2)
    else acc
  let renamed := ops.rename acc1.1 ["Data", name] newName
  if renamed.2 then (renamed.1, acc1.2)
  else
    -- moving doesn't work when merging
    let copied := ops.copyDir renamed.1 ["Data", name] newName
    (copied.1, acc1.2 || !copied.2)

/-- State of `invokeNCC` when it reaches its `return` at line 374. -/
structure Finalized (σ : Type) where
  fs : σ
  /-- `exitCode` at line 374 -/
  exitCode : Nat
  /-- the local `errorOccured` (`false` when the block that declares it is not entered) -/
  errorOccured : Bool
  reports : List Report
  result : EInstallResult

/-- The expression returned at line 374. -/
def resultOf (exitCode : Nat) : EInstallResult :=
  if exitCode = 0 ∨ exitCode = 10 then .RESULT_SUCCESS else .RESULT_FAILED

/-- Lines 325-374 of `invokeNCC`, from the exit code of the process.  The iterator is
taken to yield the names that are in the Data directory when it is created. -/
def finalize {σ : Type} (ops : FileSystem σ) (fs : σ) (exitCode : Nat) : Finalized σ :=
  if exitCode = 0 ∨ exitCode = 10 then
    -- move all installed files from the data directory one directory up
    let names := ops.entryList fs ["Data"]
    let moved := names.foldl (moveEntry ops) (fs, false)
    let hasFiles := !names.isEmpty
    -- canceled installation assumed if no files were installed
    let exitCode := if !hasFiles then 11 else exitCode
    let deleted := ops.shellDelete moved.1 [["Data"]]
    let errorOccured := moved.2 || !deleted.2
    if errorOccured then
      { fs := deleted.1, exitCode := exitCode, errorOccured := errorOccured,
        reports := [.finalizationFailed], result := resultOf exitCode }
    else
      { fs := (ops.shellDelete deleted.1 [["NexusClientCLI.log"]]).1, exitCode := exitCode,
        errorOccured := errorOccured, reports := [], result := resultOf exitCode }
  else if exitCode ≠ 11 then
    { fs := fs, exitCode := exitCode, errorOccured := false,
      reports := [.installationFailed exitCode], result := resultOf exitCode }
  else
    { fs := fs, exitCode := exitCode, errorOccured := false, reports := [],
      result := resultOf exitCode }

/-- What the operating system reports during one call of `invokeNCC`. -/
structure ProcessRun where
  /-- `ShellExecuteExW` succeeded -/
  started : Bool
  /-- observations of the iterations of the wait loop -/
  polls : List Poll
  /-- value stored by `GetExitCodeProcess`, `none` when the call leaves `exitCode` as
  initialised -/
  exitCode : Option Nat

/-- What `invokeNCC` returns and does. -/
structure Invoked (σ : Type) where
  fs : σ
  result : EInstallResult
  reports : List Report
  /-- `TerminateProcess` was called -/
  terminated : Bool

/-- Lines 250-255: copy the game binary and the script extender into the mod directory;
the second component is `copiedFiles`. -/
def copyFiles {σ : Type} (ops : FileSystem σ) (fs : σ) (filesToCopy : List String) :
    σ × List Path :=
  filesToCopy.foldl
    (fun acc file =>
      let r := ops.copyGameFile acc.1 file
      if r.2 then (r.1, acc.2 ++ [[file]]) else (r.1, acc.2))
    (fs, [])

/-- The block-exit handler registered at lines 256-261. -/
def cleanup {σ : Type} (ops : FileSystem σ) (copiedFiles : List Path) (out : Invoked σ) :
    Invoked σ :=
  let r := ops.shellDelete out.fs copiedFiles
  { out with fs := r.1, reports := if !r.2 then out.reports ++ [.cleanupFailed] else out.reports }

/-- `InstallerNCC::invokeNCC` from line 241 on (the command line of lines 208-235 is
`formatParameters`).  `tool` is what the external process does to the file system while
it runs.  `none`: the observations of `run` end while the wait loop is still running. -/
def invokeNCC {σ : Type} (ops : FileSystem σ) (tool : σ → σ) (fs : σ)
    (filesToCopy : List String) (run : ProcessRun) : Option (Invoked σ) :=
  let copied := copyFiles ops fs filesToCopy
  if !run.started then
    some (cleanup ops copied.2
      { fs := copied.1, result := .RESULT_FAILED, reports := [.failedToStart], terminated := false })
  else
    match waitLoop LoopState.init run.polls with
    | none => none
    | some s =>
      if !s.finished then
        some (cleanup ops copied.2
          { fs := tool copied.1, result := .RESULT_FAILED, reports := [], terminated := true })
      else
        let exitCode := run.exitCode.getD 128
        let fin := finalize ops (tool copied.1) exitCode
        some (cleanup ops copied.2
          { fs := fin.fs, result := fin.result, reports := fin.reports, terminated := false })

/-- A file with its content, or a directory with its named entries. -/
inductive Node where
  | file (content : String)
  | dir (entries : List (String × Node))

/-- The entry called `name` of a directory listing. -/
def lookupEntry : List (String × Node) → String → Option Node
  | [], _ => none
  | (n, v) :: rest, name => if n = name then some v else lookupEntry rest name

/-- The listing without its entries called `name`. -/
def eraseEntry : List (String × Node) → String → List (String × Node)
  | [], _ => []
  | (n, v) :: rest, name =>
    if n = name then eraseEntry rest name else (n, v) :: eraseEntry rest name

/-- Replace (`some`) or delete (`none`) the entry called `name`. -/
def putEntry (entries : List (String × Node)) (name : String) (value : Option Node) :
    List (String × Node) :=
  match value with
  | none => eraseEntry entries name
  | some v => (name, v) :: eraseEntry entries name

/-- The node at a path below `root`. -/
def Node.get : Node → Path → Option Node
  | n, [] => some n
  | .file _, _ :: _ => none
  | .dir entries, name :: rest =>
    match lookupEntry entries name with
    | none => none
    | some child => child.get rest

/-- Replace or delete the node at a path; nothing changes when the parent directory of
the path is missing. -/
def Node.update : Node → Path → Option Node → Node
  | n, [], _ => n
  | .file c, _ :: _, _ => .file c
  | .dir entries, [name], value => .dir (putEntry entries name value)
  | .dir entries, name :: next :: rest, value =>
    match lookupEntry entries name with
    | none => .dir entries
    | some child => .dir (putEntry entries name (some (child.update (next :: rest) value)))

mutual
/-- Modelled from the spec: the result of copying `source` onto an existing node (or onto
nothing) with "merge-with-overwrite semantics": two directories are merged entry by
entry, in every other case the source replaces what was there. -/
def mergeNode : Node → Option Node → Node
  | .dir source, some (.dir target) => .dir (mergeEntries source target)
  | .dir source, _ => .dir source
  | .file c, _ => .file c
/-- Modelled from the spec: merge of the entries of a source directory into the entries
of a target directory. -/
def mergeEntries : List (String × Node) → List (String × Node) → List (String × Node)
  | [], target => target
  | (name, node) :: rest, target =>
    mergeEntries rest (putEntry target name (some (mergeNode node (lookupEntry target name))))
end

/-- `QFileInfo::isFile` on the tree. -/
def treeIsFile (fs : Node) (path : Path) : Bool :=
  match fs.get path with
  | some (.file _) => true
  | _ => false

/-- `QFile::exists` on the tree: true for files and for directories. -/
def treeExists (fs : Node) (path : Path) : Bool :=
  (fs.get path).isSome

/-- Names of the entries of the directory at `path` (none when it is no directory). -/
def treeEntryList (fs : Node) (path : Path) : List String :=
  match fs.get path with
  | some (.dir entries) => entries.map Prod.fst
  | _ => []

/-- `QFile::remove` on the tree: removes a file, fails on a directory or a missing path. -/
def treeRemove (fs : Node) (path : Path) : Node × Bool :=
  match fs.get path with
  | some (.file _) => (fs.update path none, true)
  | _ => (fs, false)

/-- `QFile::rename` on the tree: moves the source, fails when the source is missing or
the new name exists. -/
def treeRename (fs : Node) (source destination : Path) : Node × Bool :=
  match fs.get source, fs.get destination with
  | some node, none => ((fs.update source none).update destination (some node), true)
  | _, _ => (fs, false)

/-- Modelled from the spec: `copyDir(source, destination, true)` of the host's utility
library, which is not part of the source file.  It fails when the source is not a
directory and otherwise leaves at the destination the merge of the source into what was
there. -/
def treeCopyDir (fs : Node) (source destination : Path) : Node × Bool :=
  match fs.get source with
  | some (.dir entries) =>
    (fs.update destination (some (mergeNode (.dir entries) (fs.get destination))), true)
  | _ => (fs, false)

/-- Modelled from the spec: `shellDelete(list)` of the host's utility library, which is
not part of the source file.  It deletes every listed path with all that is below it and
succeeds when every listed path existed. -/
def treeShellDelete (fs : Node) (paths : List Path) : Node × Bool :=
  paths.foldl (fun acc path => (acc.1.update path none, acc.2 && treeExists acc.1 path))
    (fs, true)

/-- `QFile::copy` of `<game directory>/<name>` to `<mod directory>/<name>`: fails when
the source is not a file or the destination exists. -/
def treeCopyGameFile (game : List (String × Node)) (fs : Node) (name : String) : Node × Bool :=
  match lookupEntry game name, fs.get [name] with
  | some (.file c), none => (fs.update [name] (some (.file c)), true)
  | _, _ => (fs, false)

/-- The file system whose state is the tree of the mod directory; `game` lists the game
directory. -/
def treeFS (game : List (String × Node)) : FileSystem Node where
  copyGameFile := treeCopyGameFile game
  entryList := treeEntryList
  isFile := treeIsFile
  fileExists := treeExists
  remove := treeRemove
  rename := treeRename
  copyDir := treeCopyDir
  shellDelete := treeShellDelete

/-- A mod directory whose Data directory holds a directory that is itself called Data. -/
def nestedDataMod : Node :=
  .dir [("Data", .dir [("Data", .dir [("plugin.esp", .file "P")])])]

/-- A mod directory whose Data directory holds a file called NexusClientCLI.log. -/
def logInDataMod : Node :=
  .dir [("Data", .dir [("NexusClientCLI.log", .file "L"), ("plugin.esp", .file "P")])]

/-- A mod directory after a run: Data holds a file and two directories, and the mod
directory already has a file and a directory of the same names. -/
def sampleMod : Node :=
  .dir [("Data", .dir [("plugin.esp", .file "new"),
                       ("meshes", .dir [("a.nif", .file "A2"), ("b.nif", .file "B")]),
                       ("textures", .dir [("t.dds", .file "T")])]),
        ("plugin.esp", .file "old"),
        ("meshes", .dir [("a.nif", .file "A1"), ("c.nif", .file "C")]),
        ("NexusClientCLI.log", .file "log")]

/-- A mod directory after the tool has run in which a file under Data meets a directory
of its name in the mod directory, so that `QFile::remove` fails. -/
def conflictMod : Node :=
  .dir [("Data", .dir [("readme", .file "R")]), ("readme", .dir [])]

/-! # Theorems -/

/-! ## Detection of the tool and of its runtime -/

theorem isDotNetInstalled_iff (env : Env) :
    isDotNetInstalled env = true ↔ env.registryValue dotNetKey "Install" = some 1 := by
  unfold isDotNetInstalled
  cases h : env.registryValue dotNetKey "Install" <;> simp

/-- C3: `isActive` is true exactly when the .NET 3.5 registry value `Install` is 1 and
the file `<application dir>/NCC/NexusClientCLI.exe` exists, it is false when either is
missing, and two environments that differ only in the version resources (the input of
`isNCCCompatible`) give the same answer. -/
theorem isActive_iff (env : Env) :
    (isActive env = true ↔ isDotNetInstalled env = true ∧ isNCCInstalled env = true) ∧
    (isActive env = true ↔
      env.registryValue dotNetKey "Install" = some 1 ∧
        env.fileExists (env.applicationDirPath ++ "/NCC/NexusClientCLI.exe") = true) ∧
    (isActive env = false ↔ isDotNetInstalled env = false ∨ isNCCInstalled env = false) ∧
    (∀ (size : String → Nat) (read : String → Bool) (query : String → Option VS_FIXEDFILEINFO),
      isActive { env with versionInfoSize := size, versionInfoRead := read, verQueryValue := query }
        = isActive env) := by
  refine ⟨?_, ?_, ?_, ?_⟩
  · simp [isActive]
  · rw [← isDotNetInstalled_iff]
    simp [isActive, isNCCInstalled, nccPath]
  · simp only [isActive]
    cases isDotNetInstalled env <;> cases isNCCInstalled env <;> simp
  · intro size read query
    rfl

theorem descriptions_ok (c : Constants) (key : Nat)
    (h : key = c.PROBLEM_NCCMISSING ∨ key = c.PROBLEM_NCCINCOMPATIBLE ∨
      key = c.PROBLEM_DOTNETINSTALLED) :
    (∃ text, shortDescription c key = .ok text) ∧ ∃ text, fullDescription c key = .ok text := by
  unfold shortDescription fullDescription
  constructor
  · split_ifs with h1 h2 h3
    · exact ⟨_, rfl⟩
    · exact ⟨_, rfl⟩
    · exact ⟨_, rfl⟩
    · rcases h with h | h | h <;> contradiction
  · split_ifs with h1 h2 h3
    · exact ⟨_, rfl⟩
    · exact ⟨_, rfl⟩
    · exact ⟨_, rfl⟩
    · rcases h with h | h | h <;> contradiction

theorem activeProblems_eq (c : Constants) (env : Env) :
    activeProblems c env =
      match isNCCInstalled env, isNCCCompatible c env, isDotNetInstalled env with
      | false, _, _ => [c.PROBLEM_NCCMISSING]
      | true, false, _ => [c.PROBLEM_NCCINCOMPATIBLE]
      | true, true, false => [c.PROBLEM_DOTNETINSTALLED]
      | true, true, true => [] := by
  unfold activeProblems
  cases isNCCInstalled env <;> cases isNCCCompatible c env <;>
    cases isDotNetInstalled env <;> rfl

/-- C4: `activeProblems` has at most one element, chosen by the priority NCC missing,
NCC incompatible, .NET missing; it is empty exactly when the three checks pass, an empty
list implies `isActive`, and both description functions return a text for every key of
the list. -/
theorem activeProblems_priority (c : Constants) (env : Env) :
    (activeProblems c env).length ≤ 1 ∧
    (isNCCInstalled env = false → activeProblems c env = [c.PROBLEM_NCCMISSING]) ∧
    (isNCCInstalled env = true → isNCCCompatible c env = false →
      activeProblems c env = [c.PROBLEM_NCCINCOMPATIBLE]) ∧
    (isNCCInstalled env = true → isNCCCompatible c env = true → isDotNetInstalled env = false →
      activeProblems c env = [c.PROBLEM_DOTNETINSTALLED]) ∧
    (activeProblems c env = [] ↔
      isNCCInstalled env = true ∧ isNCCCompatible c env = true ∧ isDotNetInstalled env = true) ∧
    (activeProblems c env = [] → isActive env = true) ∧
    (∀ key ∈ activeProblems c env,
      (∃ text, shortDescription c key = .ok text) ∧ ∃ text, fullDescription c key = .ok text) := by
  have hmem : ∀ key ∈ activeProblems c env,
      key = c.PROBLEM_NCCMISSING ∨ key = c.PROBLEM_NCCINCOMPATIBLE ∨
        key = c.PROBLEM_DOTNETINSTALLED := by
    rw [activeProblems_eq]
    cases isNCCInstalled env <;> cases isNCCCompatible c env <;>
      cases isDotNetInstalled env <;> simp
  refine ⟨?_, ?_, ?_, ?_, ?_, ?_, fun key hkey => descriptions_ok c key (hmem key hkey)⟩
  all_goals
    rw [activeProblems_eq]
    cases h1 : isNCCInstalled env <;> cases h2 : isNCCCompatible c env <;>
      cases h3 : isDotNetInstalled env <;> simp [isActive, h1, h3]

/-! ## The version test of `isNCCCompatible` -/

theorem mask24_eq_mod (ms : Nat) : ms &&& 0xFFFFFF = ms % 2 ^ 24 :=
  Nat.and_pow_two_sub_one_eq_mod ms 24

theorem majorVersion_eq_div (ms : Nat) : majorVersion ms = ms / 2 ^ 16 := by
  simp [majorVersion, Nat.shiftRight_eq_div_pow]

theorem minorVersion_eq_mod (ms : Nat) : minorVersion ms = ms % 2 ^ 16 :=
  Nat.and_pow_two_sub_one_eq_mod ms 16

/-- What the test of `isNCCCompatible` decides for a 16-bit expected version: the minor
version equals it and the low byte of the major version is zero. -/
theorem isNCCCompatible_iff (c : Constants) (env : Env) (info : VS_FIXEDFILEINFO)
    (hc : c.COMPATIBLE_MAJOR_VERSION < 2 ^ 16)
    (hinfo : getFileVersionInfo env (nccPath env) = .ok info) :
    isNCCCompatible c env = true ↔
      majorVersion info.dwFileVersionMS % 256 = 0 ∧
        minorVersion info.dwFileVersionMS = c.COMPATIBLE_MAJOR_VERSION := by
  simp only [isNCCCompatible, hinfo, mask24_eq_mod, majorVersion_eq_div, minorVersion_eq_mod,
    beq_iff_eq]
  norm_num at hc ⊢
  omega

/-- The `catch` branch: without readable version information the answer is `false`. -/
theorem isNCCCompatible_unreadable (c : Constants) (env : Env) (msg : String)
    (hinfo : getFileVersionInfo env (nccPath env) = .error msg) :
    isNCCCompatible c env = false := by
  simp [isNCCCompatible, hinfo]

/-- C6 (the code departs from the claim): a file version `256.N.x.x`, where `N` is
`COMPATIBLE_MAJOR_VERSION`, passes the test of `isNCCCompatible` although its major
version is 256 and not 0. -/
theorem isNCCCompatible_accepts_major_256 (c : Constants) (env : Env) (ls : Nat)
    (hc : c.COMPATIBLE_MAJOR_VERSION < 2 ^ 16)
    (hinfo : getFileVersionInfo env (nccPath env)
      = .ok { dwFileVersionMS := 0x01000000 + c.COMPATIBLE_MAJOR_VERSION, dwFileVersionLS := ls }) :
    isNCCCompatible c env = true ∧
      0x01000000 + c.COMPATIBLE_MAJOR_VERSION < 2 ^ 32 ∧
      majorVersion (0x01000000 + c.COMPATIBLE_MAJOR_VERSION) = 256 ∧
      minorVersion (0x01000000 + c.COMPATIBLE_MAJOR_VERSION) = c.COMPATIBLE_MAJOR_VERSION := by
  simp only [isNCCCompatible, hinfo, mask24_eq_mod, majorVersion_eq_div, minorVersion_eq_mod,
    beq_iff_eq]
  norm_num at hc ⊢
  omega

/-- Constants with the expected version 2. -/
theorem isNCCCompatible_accepts_major_256_witness :
    isNCCCompatible ⟨1, 2, 3, 2⟩ (sampleEnv (some ⟨0x01000002, 0⟩) (some 1) true) = true ∧
      majorVersion 0x01000002 = 256 := by
  have h := isNCCCompatible_accepts_major_256 ⟨1, 2, 3, 2⟩
    (sampleEnv (some ⟨0x01000002, 0⟩) (some 1) true) 0 (by decide) rfl
  exact ⟨h.1, h.2.2.1⟩

/-! ## The wait loop -/

theorem poll_cases (p : Poll) :
    p.res = .WAIT_OBJECT_0 ∨ p.cancelObserved = true ∨ p.idle = true := by
  rcases p with ⟨front, res, canceled⟩
  cases res <;> cases canceled <;> simp [Poll.cancelObserved, Poll.idle]

theorem loopBody_exit (s : LoopState) (p : Poll) (h : p.res = .WAIT_OBJECT_0) :
    (loopBody s p).2 = false ∧ (loopBody s p).1.finished = true := by
  simp [loopBody, h]

theorem loopBody_idle (s : LoopState) (p : Poll) (h : p.idle = true) :
    (loopBody s p).2 = false ∧ (loopBody s p).1.finished = s.finished ∧
      (loopBody s p).1.confirmCancel = s.confirmCancel ∧
      (loopBody s p).1.cancelButtonText = s.cancelButtonText := by
  rcases p with ⟨front, res, canceled⟩
  cases res <;> cases canceled <;> simp [Poll.cancelObserved, Poll.idle] at h
  simp only [loopBody]
  split_ifs <;> simp_all

theorem loopBody_first_cancel (s : LoopState) (p : Poll) (h : p.cancelObserved = true)
    (hs : s.confirmCancel = false) :
    (loopBody s p).2 = false ∧ (loopBody s p).1.finished = s.finished ∧
      (loopBody s p).1.confirmCancel = true ∧
      (loopBody s p).1.cancelButtonText = "Confirm" := by
  rcases p with ⟨front, res, canceled⟩
  cases res <;> cases canceled <;> simp [Poll.cancelObserved] at h <;>
    (simp only [loopBody]; split_ifs <;> simp_all)

theorem loopBody_second_cancel (s : LoopState) (p : Poll) (h : p.cancelObserved = true)
    (hs : s.confirmCancel = true) :
    (loopBody s p).2 = true ∧ (loopBody s p).1.finished = s.finished ∧
      (loopBody s p).1.confirmCancel = true := by
  rcases p with ⟨front, res, canceled⟩
  cases res <;> cases canceled <;> simp [Poll.cancelObserved] at h <;>
    (simp only [loopBody]; split_ifs <;> simp_all)

theorem waitLoop_cons (s : LoopState) (p : Poll) (ps : List Poll) (hs : s.finished = false) :
    waitLoop s (p :: ps) =
      if (loopBody s p).2 then some (loopBody s p).1 else waitLoop (loopBody s p).1 ps := by
  simp [waitLoop, hs]

theorem waitLoop_finished (s : LoopState) (ps : List Poll) (hs : s.finished = true) :
    waitLoop s ps = some s := by
  cases ps <;> simp [waitLoop, hs]

/-- Once `confirmCancel` is set, the loop can only leave unfinished at a further cancel
observation that follows idle iterations. -/
theorem waitLoop_unfinished_confirmed (polls : List Poll) :
    ∀ s : LoopState, s.finished = false → s.confirmCancel = true →
      ∀ s', waitLoop s polls = some s' → s'.finished = false →
        ∃ idle second rest, polls = idle ++ second :: rest ∧
          (∀ p ∈ idle, p.idle = true) ∧ second.cancelObserved = true := by
  induction polls with
  | nil => intro s hf _ s' h; simp [waitLoop, hf] at h
  | cons p ps ih =>
    intro s hf hc s' h hs'
    rw [waitLoop_cons s p ps hf] at h
    rcases poll_cases p with hp | hp | hp
    · obtain ⟨h2, h1⟩ := loopBody_exit s p hp
      rw [h2, if_neg (by simp), waitLoop_finished _ _ h1] at h
      cases h
      rw [h1] at hs'
      cases hs'
    · exact ⟨[], p, ps, rfl, by simp, hp⟩
    · obtain ⟨h2, h1, h3, _⟩ := loopBody_idle s p hp
      rw [h2, if_neg (by simp)] at h
      obtain ⟨idle, second, rest, rfl, hidle, hsecond⟩ :=
        ih _ (h1.trans hf) (h3.trans hc) s' h hs'
      refine ⟨p :: idle, second, rest, rfl, ?_, hsecond⟩
      intro q hq
      rcases List.mem_cons.1 hq with rfl | hq
      · exact hp
      · exact hidle q hq

/-- Before `confirmCancel` is set, leaving unfinished takes two cancel observations. -/
theorem waitLoop_unfinished_unconfirmed (polls : List Poll) :
    ∀ s : LoopState, s.finished = false → s.confirmCancel = false →
      ∀ s', waitLoop s polls = some s' → s'.finished = false →
        ∃ idle₁ first idle₂ second rest,
          polls = idle₁ ++ first :: (idle₂ ++ second :: rest) ∧
          (∀ p ∈ idle₁, p.idle = true) ∧ first.cancelObserved = true ∧
          (∀ p ∈ idle₂, p.idle = true) ∧ second.cancelObserved = true := by
  induction polls with
  | nil => intro s hf _ s' h; simp [waitLoop, hf] at h
  | cons p ps ih =>
    intro s hf hc s' h hs'
    rw [waitLoop_cons s p ps hf] at h
    rcases poll_cases p with hp | hp | hp
    · obtain ⟨h2, h1⟩ := loopBody_exit s p hp
      rw [h2, if_neg (by simp), waitLoop_finished _ _ h1] at h
      cases h
      rw [h1] at hs'
      cases hs'
    · obtain ⟨h2, h1, h3, _⟩ := loopBody_first_cancel s p hp hc
      rw [h2, if_neg (by simp)] at h
      obtain ⟨idle, second, rest, rfl, hidle, hsecond⟩ :=
        waitLoop_unfinished_confirmed ps _ (h1.trans hf) h3 s' h hs'
      exact ⟨[], p, idle, second, rest, rfl, by simp, hp, hidle, hsecond⟩
    · obtain ⟨h2, h1, h3, _⟩ := loopBody_idle s p hp
      rw [h2, if_neg (by simp)] at h
      obtain ⟨idle₁, first, idle₂, second, rest, rfl, hidle₁, hfirst, hidle₂, hsecond⟩ :=
        ih _ (h1.trans hf) (h3.trans hc) s' h hs'
      refine ⟨p :: idle₁, first, idle₂, second, rest, rfl, ?_, hfirst, hidle₂, hsecond⟩
      intro q hq
      rcases List.mem_cons.1 hq with rfl | hq
      · exact hp
      · exact hidle₁ q hq

theorem waitLoop_skip_idle (idle : List Poll) (hidle : ∀ p ∈ idle, p.idle = true) :
    ∀ (s : LoopState) (rest : List Poll), s.finished = false →
      ∃ s', s'.finished = false ∧ s'.confirmCancel = s.confirmCancel ∧
        s'.cancelButtonText = s.cancelButtonText ∧
        waitLoop s (idle ++ rest) = waitLoop s' rest := by
  induction idle with
  | nil => intro s rest hf; exact ⟨s, hf, rfl, rfl, rfl⟩
  | cons p ps ih =>
    intro s rest hf
    obtain ⟨h2, h1, h3, h4⟩ := loopBody_idle s p (hidle p (List.mem_cons_self _ _))
    obtain ⟨s', hf', hc', ht', hw⟩ :=
      ih (fun q hq => hidle q (List.mem_cons_of_mem _ hq)) (loopBody s p).1 rest (h1.trans hf)
    refine ⟨s', hf', hc'.trans h3, ht'.trans h4, ?_⟩
    rw [List.cons_append, waitLoop_cons s p _ hf, h2, if_neg (by simp), hw]

/-- Two cancel observations separated by idle iterations make the loop leave unfinished. -/
theorem waitLoop_two_cancels (idle₁ idle₂ rest : List Poll) (first second : Poll)
    (h₁ : ∀ p ∈ idle₁, p.idle = true) (hfirst : first.cancelObserved = true)
    (h₂ : ∀ p ∈ idle₂, p.idle = true) (hsecond : second.cancelObserved = true)
    (s : LoopState) (hf : s.finished = false) (hc : s.confirmCancel = false) :
    ∃ s', waitLoop s (idle₁ ++ first :: (idle₂ ++ second :: rest)) = some s' ∧
      s'.finished = false ∧ s'.confirmCancel = true := by
  obtain ⟨s₁, hf₁, hc₁, _, hw₁⟩ := waitLoop_skip_idle idle₁ h₁ s (first :: (idle₂ ++ second :: rest)) hf
  obtain ⟨a2, a1, a3, _⟩ := loopBody_first_cancel s₁ first hfirst (hc₁.trans hc)
  obtain ⟨s₂, hf₂, hc₂, _, hw₂⟩ :=
    waitLoop_skip_idle idle₂ h₂ (loopBody s₁ first).1 (second :: rest) (a1.trans hf₁)
  obtain ⟨b2, b1, b3⟩ := loopBody_second_cancel s₂ second hsecond (hc₂.trans a3)
  refine ⟨(loopBody s₂ second).1, ?_, b1.trans hf₂, b3⟩
  rw [hw₁, waitLoop_cons s₁ first _ hf₁, a2, if_neg (by simp), hw₂,
    waitLoop_cons s₂ second _ hf₂, b2, if_pos rfl]

/-- C7: the wait loop started with `confirmCancel = false` leaves with `finished = false`
only at the second cancel observation (all other iterations before it being idle), and
two such observations do make it leave; the first cancel observation only sets
`confirmCancel` and the button text "Confirm"; an iteration whose wait reports the exit
of the process ends the loop with `finished = true` whatever the cancel state; and a
loop left unfinished makes `invokeNCC` terminate the process and return `RESULT_FAILED`. -/
theorem waitLoop_force_close_needs_two_cancels (polls : List Poll) :
    (∀ s', waitLoop LoopState.init polls = some s' → s'.finished = false →
      ∃ idle₁ first idle₂ second rest,
        polls = idle₁ ++ first :: (idle₂ ++ second :: rest) ∧
        (∀ p ∈ idle₁, p.idle = true) ∧ first.cancelObserved = true ∧
        (∀ p ∈ idle₂, p.idle = true) ∧ second.cancelObserved = true) ∧
    (∀ idle₁ first idle₂ second rest,
      polls = idle₁ ++ first :: (idle₂ ++ second :: rest) →
      (∀ p ∈ idle₁, p.idle = true) → first.cancelObserved = true →
      (∀ p ∈ idle₂, p.idle = true) → second.cancelObserved = true →
      ∃ s', waitLoop LoopState.init polls = some s' ∧ s'.finished = false) ∧
    (∀ (s : LoopState) (p : Poll), s.confirmCancel = false → p.cancelObserved = true →
      (loopBody s p).2 = false ∧ (loopBody s p).1.finished = s.finished ∧
        (loopBody s p).1.confirmCancel = true ∧
        (loopBody s p).1.cancelButtonText = "Confirm") ∧
    (∀ (s : LoopState) (p : Poll) (rest : List Poll), s.finished = false →
      p.res = .WAIT_OBJECT_0 →
      ∃ s', waitLoop s (p :: rest) = some s' ∧ s'.finished = true) ∧
    (∀ {σ : Type} (ops : FileSystem σ) (tool : σ → σ) (fs : σ) (files : List String)
      (code : Option Nat) (s' : LoopState),
      waitLoop LoopState.init polls = some s' → s'.finished = false →
      ∃ out, invokeNCC ops tool fs files { started := true, polls := polls, exitCode := code }
          = some out ∧
        out.terminated = true ∧ out.result = .RESULT_FAILED) := by
  refine ⟨?_, ?_, ?_, ?_, ?_⟩
  · exact waitLoop_unfinished_unconfirmed polls LoopState.init rfl rfl
  · intro idle₁ first idle₂ second rest hpolls h₁ hfirst h₂ hsecond
    obtain ⟨s', hw, hf, _⟩ :=
      waitLoop_two_cancels idle₁ idle₂ rest first second h₁ hfirst h₂ hsecond LoopState.init rfl rfl
    exact ⟨s', hpolls ▸ hw, hf⟩
  · intro s p hs hp
    exact loopBody_first_cancel s p hp hs
  · intro s p rest hs hp
    obtain ⟨h2, h1⟩ := loopBody_exit s p hp
    refine ⟨(loopBody s p).1, ?_, h1⟩
    rw [waitLoop_cons s p rest hs, h2, if_neg (by simp), waitLoop_finished _ _ h1]
  · intro σ ops tool fs files code s' hw hf
    simp [invokeNCC, hw, hf, cleanup]

/-- A cancel, an idle iteration and a second cancel: the loop leaves unfinished with the
button text "Confirm"; a cancel followed by the exit of the process: finished. -/
theorem waitLoop_examples :
    waitLoop LoopState.init
        [⟨true, .WAIT_TIMEOUT, true⟩, ⟨false, .WAIT_TIMEOUT, false⟩, ⟨false, .WAIT_TIMEOUT, true⟩]
      = some { confirmCancel := true, finished := false, inFront := true,
               cancelButtonText := "Confirm" } ∧
    waitLoop LoopState.init [⟨false, .WAIT_TIMEOUT, true⟩, ⟨false, .WAIT_OBJECT_0, true⟩]
      = some { confirmCancel := true, finished := true, inFront := false,
               cancelButtonText := "Confirm" } ∧
    waitLoop LoopState.init [⟨false, .WAIT_TIMEOUT, true⟩, ⟨false, .WAIT_TIMEOUT, false⟩] = none := by
  decide

/-! ## Archive detection -/

theorem hasFomodScript_iff (eqName : String → String → Bool) (t : DirectoryTree) :
    hasFomodScript eqName t = true ↔
      ∃ d ∈ t.nodes, eqName d.name "fomod" = true ∧
        ∃ f ∈ d.leafs, eqName f "ModuleConfig.xml" = true ∨ eqName f "script.cs" = true := by
  simp [hasFomodScript, List.any_eq_true]

theorem isArchiveSupported_node (eqName : String → String → Bool) (name : String)
    (nodes : List DirectoryTree) (leafs : List String) :
    isArchiveSupported eqName (.node name nodes leafs) =
      (hasFomodScript eqName (.node name nodes leafs) ||
        match nodes, leafs with
        | [node], [] => isArchiveSupported eqName node
        | _, _ => false) := by
  cases h : hasFomodScript eqName (.node name nodes leafs)
  · match nodes, leafs, h with
    | [], _, h => simp [isArchiveSupported, h]
    | [node], [], h => simp [isArchiveSupported, h]
    | [node], _ :: _, h => simp [isArchiveSupported, h]
    | _ :: _ :: _, _, h => simp [isArchiveSupported, h]
  · match nodes, leafs, h with
    | [], _, h => simp [isArchiveSupported, h]
    | [node], [], h => simp [isArchiveSupported, h]
    | [node], _ :: _, h => simp [isArchiveSupported, h]
    | _ :: _ :: _, _, h => simp [isArchiveSupported, h]

theorem isArchiveSupported_of_fomod (eqName : String → String → Bool) (t : DirectoryTree)
    (h : hasFomodScript eqName t = true) : isArchiveSupported eqName t = true := by
  cases t with
  | node name nodes leafs => rw [isArchiveSupported_node, h, Bool.true_or]

theorem isArchiveSupported_wrapper (eqName : String → String → Bool) (name : String)
    (w : DirectoryTree) :
    isArchiveSupported eqName (.node name [w] []) =
      (hasFomodScript eqName (.node name [w] []) || isArchiveSupported eqName w) := by
  rw [isArchiveSupported_node]

theorem isArchiveSupported_chain (eqName : String → String → Bool) (chain : List DirectoryTree) :
    ∀ t : DirectoryTree, List.Chain SingleWrapper t chain →
      hasFomodScript eqName ((t :: chain).getLast (List.cons_ne_nil _ _)) = true →
      isArchiveSupported eqName t = true := by
  induction chain with
  | nil => intro t _ h; exact isArchiveSupported_of_fomod eqName t h
  | cons c cs ih =>
    intro t hchain h
    rw [List.chain_cons] at hchain
    obtain ⟨⟨hnodes, hleafs⟩, hrest⟩ := hchain
    have hc : isArchiveSupported eqName c = true := by
      apply ih c hrest
      rwa [List.getLast_cons (List.cons_ne_nil _ _)] at h
    cases t with
    | node name nodes leafs =>
      simp only [DirectoryTree.nodes, DirectoryTree.leafs] at hnodes hleafs
      subst hnodes hleafs
      rw [isArchiveSupported_wrapper, hc, Bool.or_true]

theorem chain_of_isArchiveSupported (eqName : String → String → Bool) (t : DirectoryTree) :
    isArchiveSupported eqName t = true →
      ∃ chain : List DirectoryTree, List.Chain SingleWrapper t chain ∧
        hasFomodScript eqName ((t :: chain).getLast (List.cons_ne_nil _ _)) = true := by
  induction t using isArchiveSupported.induct eqName with
  | case1 name nodes leafs h =>
    intro _
    exact ⟨[], List.Chain.nil, h⟩
  | case2 name w h ih =>
    intro hsup
    rw [isArchiveSupported_wrapper] at hsup
    simp only [h, Bool.false_or] at hsup
    obtain ⟨chain, hchain, hlast⟩ := ih hsup
    refine ⟨w :: chain, List.Chain.cons ⟨rfl, rfl⟩ hchain, ?_⟩
    rwa [List.getLast_cons (List.cons_ne_nil _ _)]
  | case3 name nodes leafs hne h =>
    intro hsup
    rw [isArchiveSupported_node] at hsup
    simp only [h, Bool.false_or] at hsup
    cases hsup

/-- C5: `isArchiveSupported` is a total function, and it answers `true` exactly when a
chain of wrapper directories (each with one sub-directory and no file) leads from the
tree to a directory that has a sub-directory named "fomod" with a file named
"ModuleConfig.xml" or "script.cs".  So a fomod directory under one wrapper directory is
supported; a file next to a wrapper directory (one that is not itself named "fomod"), or
several top-level directories none of which is named "fomod", make the archive
unsupported. -/
theorem isArchiveSupported_iff_chain (eqName : String → String → Bool) (t : DirectoryTree) :
    (isArchiveSupported eqName t = true ↔
      ∃ chain : List DirectoryTree, List.Chain SingleWrapper t chain ∧
        ∃ d ∈ ((t :: chain).getLast (List.cons_ne_nil _ _)).nodes,
          eqName d.name "fomod" = true ∧
            ∃ f ∈ d.leafs, eqName f "ModuleConfig.xml" = true ∨ eqName f "script.cs" = true) ∧
    (∀ (top wrapper : String) (dirs : List DirectoryTree) (files : List String) (d : DirectoryTree),
      d ∈ dirs → eqName d.name "fomod" = true →
      (∃ f ∈ d.leafs, eqName f "ModuleConfig.xml" = true ∨ eqName f "script.cs" = true) →
      isArchiveSupported eqName (.node top [.node wrapper dirs files] []) = true) ∧
    (∀ (top : String) (wrapper : DirectoryTree) (file : String) (files : List String),
      eqName wrapper.name "fomod" = false →
      isArchiveSupported eqName (.node top [wrapper] (file :: files)) = false) ∧
    (∀ (top : String) (a b : DirectoryTree) (dirs : List DirectoryTree) (files : List String),
      (∀ d ∈ a :: b :: dirs, eqName d.name "fomod" = false) →
      isArchiveSupported eqName (.node top (a :: b :: dirs) files) = false) := by
  refine ⟨?_, ?_, ?_, ?_⟩
  · constructor
    · intro h
      obtain ⟨chain, hchain, hlast⟩ := chain_of_isArchiveSupported eqName t h
      exact ⟨chain, hchain, (hasFomodScript_iff eqName _).1 hlast⟩
    · rintro ⟨chain, hchain, hlast⟩
      exact isArchiveSupported_chain eqName chain t hchain ((hasFomodScript_iff eqName _).2 hlast)
  · intro top wrapper dirs files d hd hname hfile
    rw [isArchiveSupported_wrapper]
    have : isArchiveSupported eqName (.node wrapper dirs files) = true :=
      isArchiveSupported_of_fomod eqName _ ((hasFomodScript_iff eqName _).2 ⟨d, hd, hname, hfile⟩)
    rw [this, Bool.or_true]
  · intro top wrapper file files hname
    have h : hasFomodScript eqName (.node top [wrapper] (file :: files)) = false := by
      simp [hasFomodScript, DirectoryTree.nodes, hname]
    rw [isArchiveSupported_node, h]
    rfl
  · intro top a b dirs files hnames
    have h : hasFomodScript eqName (.node top (a :: b :: dirs) files) = false := by
      rw [Bool.eq_false_iff]
      intro hf
      obtain ⟨d, hd, hname, _⟩ := (hasFomodScript_iff eqName _).1 hf
      rw [hnames d hd] at hname
      cases hname
    rw [isArchiveSupported_node, h]
    rfl

/-- Three archives: a fomod directory under one wrapper, the same with a file next to
the wrapper, and two top-level directories. -/
theorem isArchiveSupported_examples :
    isArchiveSupported (fun a b => a == b)
      (.node "" [.node "Mod" [.node "fomod" [] ["ModuleConfig.xml"]] ["readme.txt"]] []) = true ∧
    isArchiveSupported (fun a b => a == b)
      (.node "" [.node "Mod" [.node "fomod" [] ["script.cs"]] []] ["readme.txt"]) = false ∧
    isArchiveSupported (fun a b => a == b)
      (.node "" [.node "Mod" [.node "fomod" [] ["script.cs"]] [], .node "Docs" [] []] []) = false := by
  decide

/-! ## The command line -/

/-- The parameter string has 32 fixed characters around its seven arguments. -/
theorem formatParameters_length (inp : CommandLineInputs) (se : WString) :
    (formatParameters inp se).length =
      32 + inp.gameShortName.length + inp.profilePath.length + inp.gameDirectory.length
        + inp.overwritePath.length + se.length + inp.archiveName.length + inp.modPath.length := by
  simp only [formatParameters, List.length_append]
  have h1 : "-g ".toList.length = 3 := rfl
  have h2 : " -p \"".toList.length = 5 := rfl
  have h3 : "\" -gd \"".toList.length = 7 := rfl
  have h4 : "\" -d \"".toList.length = 6 := rfl
  have h5 : "\" ".toList.length = 2 := rfl
  have h6 : " -i \"".toList.length = 5 := rfl
  have h7 : "\" \"".toList.length = 3 := rfl
  have h8 : "\"".toList.length = 1 := rfl
  rw [h1, h2, h3, h4, h5, h6, h7, h8]
  omega

/-- Without a script extender the `-se` argument is empty, with one it is `-se "a.b.c"`
for the three numbers of `getSEVersion`. -/
theorem seString_form (env : Env) (inp : CommandLineInputs) :
    (inp.extenderLoader = none → seString env inp = .ok []) ∧
    (∀ loader info, inp.extenderLoader = some loader →
      getFileVersionInfo env loader = .ok info →
      seString env inp = .ok ("-se \"".toList ++
        (formatInt (info.dwFileVersionMS &&& 0xFFFF) ++ ['.']
          ++ formatInt (info.dwFileVersionLS >>> 16) ++ ['.']
          ++ formatInt (info.dwFileVersionLS &&& 0xFFFF)) ++ "\"".toList)) := by
  constructor
  · intro h
    simp [seString, h]
  · intro loader info h hinfo
    simp [seString, h, getSEVersion, hinfo]

theorem longPath_length : longPath.length = 250 := by
  rw [longPath, List.length_append, List.length_replicate]
  rfl

/-- C8 (the code departs from the claim): with five paths of 250 characters, each at
most `MAX_PATH`, the parameter string has 1288 characters; the count passed to the
formatting call is `sizeof(parameters)` = 2048, so 1289 wide characters are stored into
the buffer of 1024. -/
theorem parameters_overflow :
    (longInputs.profilePath.length ≤ MAX_PATH ∧ longInputs.gameDirectory.length ≤ MAX_PATH ∧
      longInputs.overwritePath.length ≤ MAX_PATH ∧ longInputs.archiveName.length ≤ MAX_PATH ∧
      longInputs.modPath.length ≤ MAX_PATH) ∧
    (∀ env, seString env longInputs = .ok []) ∧
    (formatParameters longInputs []).length = 1288 ∧
    sizeofParameters = 2048 ∧
    parametersStored longInputs [] = 1289 ∧
    parametersCapacity < parametersStored longInputs [] := by
  have hlen : (formatParameters longInputs []).length = 1288 := by
    rw [formatParameters_length]
    simp only [longInputs, longPath_length]
    rfl
  have hstored : parametersStored longInputs [] = 1289 := by
    simp [parametersStored, snwprintfStored, hlen, sizeofParameters, parametersCapacity,
      sizeof_wchar_t]
  refine ⟨?_, fun env => rfl, hlen, rfl, hstored, ?_⟩
  · simp only [longInputs, longPath_length, MAX_PATH]
    decide
  · rw [hstored]
    decide

/-- A parameter string of fewer than 1024 characters fits the buffer. -/
theorem parametersStored_le (inp : CommandLineInputs) (se : WString)
    (h : (formatParameters inp se).length < parametersCapacity) :
    parametersStored inp se = (formatParameters inp se).length + 1 ∧
      parametersStored inp se ≤ parametersCapacity := by
  have h2 : (formatParameters inp se).length < sizeofParameters := by
    simp only [sizeofParameters, parametersCapacity, sizeof_wchar_t] at h ⊢
    omega
  simp only [parametersStored, snwprintfStored, if_pos h2]
  exact ⟨trivial, h⟩

/-! ## `install` -/

/-- An `__installInfo.txt` with three lines takes effect, the same text with a trailing
newline splits into four fields and leaves the mod as it was set before the run. -/
theorem install_trailing_newline :
    (install (sampleHost (some "Better Mod\n2.1\n77")) (fun _ _ => .ok .RESULT_SUCCESS)
      "Guess" "archive.7z" "1.0" 5).mod
      = some { name := "Better Mod", absolutePath := "C:/MO/mods/Guess",
               installationFile := "archive.7z", version := "2.1", nexusID := 77 } ∧
    splitLines "Better Mod\n2.1\n77\n" = ["Better Mod", "2.1", "77", ""] ∧
    (install (sampleHost (some "Better Mod\n2.1\n77\n")) (fun _ _ => .ok .RESULT_SUCCESS)
      "Guess" "archive.7z" "1.0" 5).mod
      = some { name := "Guess", absolutePath := "C:/MO/mods/Guess",
               installationFile := "archive.7z", version := "1.0", nexusID := 5 } := by
  refine ⟨?_, ?_, ?_⟩ <;> decide

theorem resultOf_eq_success (exitCode : Nat) :
    resultOf exitCode = .RESULT_SUCCESS ↔ exitCode = 0 ∨ exitCode = 10 := by
  unfold resultOf
  split_ifs with h <;> simp [h]

theorem resultOf_eq_failed (exitCode : Nat) :
    resultOf exitCode = .RESULT_FAILED ↔ ¬(exitCode = 0 ∨ exitCode = 10) := by
  unfold resultOf
  split_ifs with h <;> simp [h]

/-- Exit code 0 or 10 with entries under Data: success, and the only possible report is
the one about finalization. -/
theorem finalize_installed {σ : Type} (ops : FileSystem σ) (fs : σ) (exitCode : Nat)
    (hcode : exitCode = 0 ∨ exitCode = 10) (hfiles : ops.entryList fs ["Data"] ≠ []) :
    (finalize ops fs exitCode).result = .RESULT_SUCCESS ∧
      (finalize ops fs exitCode).exitCode = exitCode ∧
      ((finalize ops fs exitCode).reports =
        if (finalize ops fs exitCode).errorOccured then [.finalizationFailed] else []) := by
  have hempty : (ops.entryList fs ["Data"]).isEmpty = false := by
    cases h : ops.entryList fs ["Data"] with
    | nil => exact absurd h hfiles
    | cons _ _ => rfl
  simp only [finalize, if_pos hcode, hempty, Bool.not_false, Bool.not_true, Bool.false_eq_true,
    if_false]
  split_ifs with herr <;> simp [resultOf, hcode, herr]

/-- Exit code 0 or 10 without entries under Data: treated as exit code 11. -/
theorem finalize_nothing_installed {σ : Type} (ops : FileSystem σ) (fs : σ) (exitCode : Nat)
    (hcode : exitCode = 0 ∨ exitCode = 10) (hfiles : ops.entryList fs ["Data"] = []) :
    (finalize ops fs exitCode).result = .RESULT_FAILED ∧
      (finalize ops fs exitCode).exitCode = 11 ∧
      ((finalize ops fs exitCode).reports =
        if (finalize ops fs exitCode).errorOccured then [.finalizationFailed] else []) := by
  simp only [finalize, if_pos hcode, hfiles, List.isEmpty_nil, Bool.not_true, Bool.not_false,
    if_true]
  split_ifs with herr <;> simp [resultOf, herr]

/-- Any other exit code: failure, reported unless the code is 11. -/
theorem finalize_other_code {σ : Type} (ops : FileSystem σ) (fs : σ) (exitCode : Nat)
    (hcode : ¬(exitCode = 0 ∨ exitCode = 10)) :
    (finalize ops fs exitCode).result = .RESULT_FAILED ∧
      (finalize ops fs exitCode).exitCode = exitCode ∧
      (finalize ops fs exitCode).errorOccured = false ∧
      ((finalize ops fs exitCode).reports =
        if exitCode ≠ 11 then [.installationFailed exitCode] else []) := by
  simp only [finalize, if_neg hcode]
  split_ifs with h11 <;> simp [resultOf, hcode]

theorem cleanup_result {σ : Type} (ops : FileSystem σ) (copied : List Path) (out : Invoked σ) :
    (cleanup ops copied out).result = out.result ∧
      (cleanup ops copied out).terminated = out.terminated ∧
      ∀ r, r ≠ .cleanupFailed → (r ∈ (cleanup ops copied out).reports ↔ r ∈ out.reports) := by
  refine ⟨rfl, rfl, ?_⟩
  intro r hr
  simp only [cleanup]
  split_ifs <;> simp [hr]

/-- C2: when the process was started and the wait loop ended with `finished = true`,
`invokeNCC` returns a result without terminating the process; the result is
`RESULT_SUCCESS` exactly when the exit code is 0 or 10 and the iteration over the Data
directory found an entry; exit code 0 or 10 without an entry is turned into exit code 11
and gives `RESULT_FAILED` and no "installation failed" report; every other exit code
gives `RESULT_FAILED`.  The statement holds for every behaviour of the file system, so
failures of the file operations do not enter the result. -/
theorem invokeNCC_result {σ : Type} (ops : FileSystem σ) (tool : σ → σ) (fs : σ)
    (files : List String) (polls : List Poll) (code : Option Nat) (s : LoopState)
    (hloop : waitLoop LoopState.init polls = some s) (hfinished : s.finished = true) :
    ∃ out, invokeNCC ops tool fs files { started := true, polls := polls, exitCode := code }
        = some out ∧
      out.terminated = false ∧
      (out.result = .RESULT_SUCCESS ↔
        (code.getD 128 = 0 ∨ code.getD 128 = 10) ∧
          ops.entryList (tool (copyFiles ops fs files).1) ["Data"] ≠ []) ∧
      ((code.getD 128 = 0 ∨ code.getD 128 = 10) →
        ops.entryList (tool (copyFiles ops fs files).1) ["Data"] = [] →
        (finalize ops (tool (copyFiles ops fs files).1) (code.getD 128)).exitCode = 11 ∧
        out.result = .RESULT_FAILED ∧ ∀ c, Report.installationFailed c ∉ out.reports) ∧
      (¬(code.getD 128 = 0 ∨ code.getD 128 = 10) → out.result = .RESULT_FAILED) ∧
      out.result = resultOf (finalize ops (tool (copyFiles ops fs files).1) (code.getD 128)).exitCode := by
  refine ⟨_, by simp only [invokeNCC, hloop, hfinished]; rfl, rfl, ?_, ?_, ?_, ?_⟩
  · simp only [cleanup_result]
    by_cases hcode : code.getD 128 = 0 ∨ code.getD 128 = 10
    · by_cases hfiles : ops.entryList (tool (copyFiles ops fs files).1) ["Data"] = []
      · have h := (finalize_nothing_installed ops _ _ hcode hfiles).1
        simp [h, hfiles]
      · have h := (finalize_installed ops _ _ hcode hfiles).1
        simp [h, hfiles, hcode]
    · have h := (finalize_other_code ops (tool (copyFiles ops fs files).1) _ hcode).1
      simp [h, hcode]
  · intro hcode hfiles
    obtain ⟨h1, h2, h3⟩ := finalize_nothing_installed ops _ _ hcode hfiles
    refine ⟨h2, h1, ?_⟩
    intro c hc
    rw [(cleanup_result ops _ _).2.2 _ (by simp)] at hc
    simp only at hc
    rw [h3] at hc
    split_ifs at hc <;> simp at hc
  · intro hcode
    exact (finalize_other_code ops (tool (copyFiles ops fs files).1) _ hcode).1
  · simp only [cleanup_result]
    by_cases hcode : code.getD 128 = 0 ∨ code.getD 128 = 10
    · by_cases hfiles : ops.entryList (tool (copyFiles ops fs files).1) ["Data"] = []
      · obtain ⟨h1, h2, _⟩ := finalize_nothing_installed ops _ _ hcode hfiles
        rw [h1, h2]; rfl
      · obtain ⟨h1, h2, _⟩ := finalize_installed ops _ _ hcode hfiles
        rw [h1, h2, (resultOf_eq_success _).2 hcode]
    · obtain ⟨h1, h2, _⟩ := finalize_other_code ops (tool (copyFiles ops fs files).1) _ hcode
      rw [h1, h2, (resultOf_eq_failed _).2 hcode]

/-- A run that leaves `conflictMod`: removing the directory "readme" fails,
`errorOccured` is set and reported, and the result is `RESULT_SUCCESS` all the same. -/
theorem invokeNCC_result_witness :
    (finalize (treeFS []) conflictMod 0).errorOccured = true ∧
    ∃ out, invokeNCC (treeFS []) (fun _ => conflictMod) (.dir [("readme", .dir [])]) []
        { started := true, polls := [⟨false, .WAIT_OBJECT_0, false⟩], exitCode := some 0 }
        = some out ∧
      out.result = .RESULT_SUCCESS ∧ out.reports = [.finalizationFailed] := by
  obtain ⟨out, hout, _, hres, _, _, _⟩ :=
    invokeNCC_result (treeFS []) (fun _ => conflictMod) (.dir [("readme", .dir [])]) []
      [⟨false, .WAIT_OBJECT_0, false⟩] (some 0)
      { LoopState.init with finished := true } rfl rfl
  refine ⟨by decide, out, hout, hres.2 ⟨Or.inl rfl, by decide⟩, ?_⟩
  have h : invokeNCC (treeFS []) (fun _ => conflictMod) (.dir [("readme", .dir [])]) []
      { started := true, polls := [⟨false, .WAIT_OBJECT_0, false⟩], exitCode := some 0 }
      = some (cleanup (treeFS []) []
          { fs := (finalize (treeFS []) conflictMod 0).fs,
            result := (finalize (treeFS []) conflictMod 0).result,
            reports := (finalize (treeFS []) conflictMod 0).reports, terminated := false }) := rfl
  rw [h] at hout
  injection hout with hout
  rw [← hout]
  decide

/-! ## Reconciliation of the Data directory on the tree -/

theorem lookupEntry_eraseEntry_ne (entries : List (String × Node)) (a b : String) (h : a ≠ b) :
    lookupEntry (eraseEntry entries a) b = lookupEntry entries b := by
  induction entries with
  | nil => rfl
  | cons e es ih =>
    obtain ⟨n, v⟩ := e
    by_cases hna : n = a
    · subst hna
      simp only [eraseEntry, if_true, lookupEntry, if_neg h, ih]
    · by_cases hnb : n = b
      · simp only [eraseEntry, if_neg hna, lookupEntry, if_pos hnb]
      · simp only [eraseEntry, if_neg hna, lookupEntry, if_neg hnb, ih]

theorem lookupEntry_eraseEntry_same (entries : List (String × Node)) (a : String) :
    lookupEntry (eraseEntry entries a) a = none := by
  induction entries with
  | nil => rfl
  | cons e es ih =>
    obtain ⟨n, v⟩ := e
    by_cases hna : n = a
    · simp only [eraseEntry, if_pos hna, ih]
    · simp only [eraseEntry, if_neg hna, lookupEntry, ih]

theorem lookupEntry_putEntry_same (entries : List (String × Node)) (a : String)
    (v : Option Node) : lookupEntry (putEntry entries a v) a = v := by
  cases v with
  | none => exact lookupEntry_eraseEntry_same entries a
  | some n => simp only [putEntry, lookupEntry, if_true]

theorem lookupEntry_putEntry_ne (entries : List (String × Node)) (a b : String)
    (v : Option Node) (h : a ≠ b) :
    lookupEntry (putEntry entries a v) b = lookupEntry entries b := by
  cases v with
  | none => exact lookupEntry_eraseEntry_ne entries a b h
  | some n =>
    simp only [putEntry, lookupEntry, if_neg h]
    exact lookupEntry_eraseEntry_ne entries a b h

theorem lookupEntry_of_mem (entries : List (String × Node)) (name : String) (node : Node)
    (hnodup : (entries.map Prod.fst).Nodup) (hmem : (name, node) ∈ entries) :
    lookupEntry entries name = some node := by
  induction entries with
  | nil => cases hmem
  | cons e es ih =>
    obtain ⟨n, v⟩ := e
    rw [List.map_cons, List.nodup_cons] at hnodup
    rcases List.mem_cons.1 hmem with heq | hmem'
    · cases heq
      simp [lookupEntry]
    · have hne : n ≠ name := by
        rintro rfl
        exact hnodup.1 (List.mem_map.2 ⟨(n, node), hmem', rfl⟩)
      simp [lookupEntry, hne, ih hnodup.2 hmem']

theorem lookupEntry_isSome_of_mem (entries : List (String × Node)) (name : String)
    (hmem : name ∈ entries.map Prod.fst) : ∃ node, lookupEntry entries name = some node := by
  induction entries with
  | nil => cases hmem
  | cons e es ih =>
    obtain ⟨n, v⟩ := e
    by_cases hn : n = name
    · exact ⟨v, by simp [lookupEntry, hn]⟩
    · rw [List.map_cons, List.mem_cons] at hmem
      rcases hmem with heq | hmem
      · exact absurd heq.symm hn
      · obtain ⟨node, hnode⟩ := ih hmem
        exact ⟨node, by simp [lookupEntry, hn, hnode]⟩

theorem lookupEntry_eq_none (entries : List (String × Node)) (name : String)
    (hmem : name ∉ entries.map Prod.fst) : lookupEntry entries name = none := by
  induction entries with
  | nil => rfl
  | cons e es ih =>
    obtain ⟨n, v⟩ := e
    rw [List.map_cons, List.mem_cons, not_or] at hmem
    simp [lookupEntry, Ne.symm hmem.1, ih hmem.2]

theorem get_single (entries : List (String × Node)) (name : String) :
    (Node.dir entries).get [name] = lookupEntry entries name := by
  simp only [Node.get]
  cases lookupEntry entries name <;> rfl

theorem get_two (entries inner : List (String × Node)) (a b : String)
    (h : lookupEntry entries a = some (.dir inner)) :
    (Node.dir entries).get [a, b] = lookupEntry inner b := by
  simp only [Node.get, h]
  cases lookupEntry inner b <;> rfl

theorem update_single (entries : List (String × Node)) (name : String) (v : Option Node) :
    (Node.dir entries).update [name] v = .dir (putEntry entries name v) := by
  simp only [Node.update]

theorem update_two (entries inner : List (String × Node)) (a b : String) (v : Option Node)
    (h : lookupEntry entries a = some (.dir inner)) :
    (Node.dir entries).update [a, b] v
      = .dir (putEntry entries a (some (.dir (putEntry inner b v)))) := by
  simp only [Node.update, h]

theorem mergeNode_file (c : String) (old : Option Node) : mergeNode (.file c) old = .file c := by
  cases old <;> simp [mergeNode]

theorem mergeNode_none (node : Node) : mergeNode node none = node := by
  cases node <;> simp [mergeNode]

theorem mergeNode_dir_file (source : List (String × Node)) (c : String) :
    mergeNode (.dir source) (some (.file c)) = .dir source := by
  simp [mergeNode]

theorem mergeNode_dir_dir (source target : List (String × Node)) :
    mergeNode (.dir source) (some (.dir target)) = .dir (mergeEntries source target) := by
  simp [mergeNode]

theorem treeIsFile_data (es ds : List (String × Node)) (x : String)
    (hD : lookupEntry es "Data" = some (.dir ds)) :
    treeIsFile (.dir es) ["Data", x] =
      match lookupEntry ds x with
      | some (.file _) => true
      | _ => false := by
  rw [treeIsFile, get_two es ds "Data" x hD]

theorem treeExists_single (es : List (String × Node)) (x : String) :
    treeExists (.dir es) [x] = (lookupEntry es x).isSome := by
  rw [treeExists, get_single]

theorem treeRemove_file (es : List (String × Node)) (x c : String)
    (h : lookupEntry es x = some (.file c)) :
    treeRemove (.dir es) [x] = (.dir (putEntry es x none), true) := by
  rw [treeRemove, get_single, h, update_single]

theorem treeRemove_dir (es d : List (String × Node)) (x : String)
    (h : lookupEntry es x = some (.dir d)) :
    treeRemove (.dir es) [x] = (.dir es, false) := by
  rw [treeRemove, get_single, h]

theorem treeRename_data (es ds : List (String × Node)) (x : String) (node : Node)
    (hD : lookupEntry es "Data" = some (.dir ds)) (hn : lookupEntry ds x = some node)
    (hold : lookupEntry es x = none) :
    treeRename (.dir es) ["Data", x] [x] =
      (.dir (putEntry (putEntry es "Data" (some (.dir (putEntry ds x none)))) x (some node)),
        true) := by
  simp only [treeRename, get_two es ds "Data" x hD, hn, get_single, hold,
    update_two es ds "Data" x none hD, update_single]

theorem treeRename_exists (es : List (String × Node)) (x : String) (old : Node)
    (hold : lookupEntry es x = some old) :
    treeRename (.dir es) ["Data", x] [x] = (.dir es, false) := by
  rw [treeRename, get_single, hold]
  cases (Node.dir es).get ["Data", x] <;> rfl

theorem treeCopyDir_data (es ds s : List (String × Node)) (x : String)
    (hD : lookupEntry es "Data" = some (.dir ds)) (hn : lookupEntry ds x = some (.dir s)) :
    treeCopyDir (.dir es) ["Data", x] [x] =
      (.dir (putEntry es x (some (mergeNode (.dir s) (lookupEntry es x)))), true) := by
  simp only [treeCopyDir, get_two es ds "Data" x hD, hn, get_single, update_single]

theorem treeCopyDir_file (es ds : List (String × Node)) (x c : String)
    (hD : lookupEntry es "Data" = some (.dir ds)) (hn : lookupEntry ds x = some (.file c)) :
    treeCopyDir (.dir es) ["Data", x] [x] = (.dir es, false) := by
  rw [treeCopyDir, get_two es ds "Data" x hD, hn]

/-- The entries of the mod directory and of Data after `moveEntry`, in the four cases
in which no error is raised, and the error in the fifth. -/
theorem moveEntry_tree_cases (game : List (String × Node)) (es ds : List (String × Node))
    (x : String) (node : Node) (err : Bool) (hx : x ≠ "Data")
    (hD : lookupEntry es "Data" = some (.dir ds)) (hn : lookupEntry ds x = some node) :
    (∃ c d, node = .file c ∧ lookupEntry es x = some (.dir d) ∧
      moveEntry (treeFS game) (.dir es, err) x = (.dir es, true)) ∨
    (∃ s old, node = .dir s ∧ lookupEntry es x = some old ∧
      moveEntry (treeFS game) (.dir es, err) x =
        (.dir (putEntry es x (some (mergeNode node (lookupEntry es x)))), err)) ∨
    (∃ es₁, (∀ y, lookupEntry es₁ y = if y = x then none else lookupEntry es y) ∧
      mergeNode node (lookupEntry es x) = node ∧
      moveEntry (treeFS game) (.dir es, err) x =
        (.dir (putEntry (putEntry es₁ "Data" (some (.dir (putEntry ds x none)))) x (some node)),
          err)) := by
  have hx' : "Data" ≠ x := Ne.symm hx
  cases node with
  | file c =>
    cases hold : lookupEntry es x with
    | none =>
      refine Or.inr (Or.inr ⟨es, ?_, mergeNode_file c _, ?_⟩)
      · intro y
        split_ifs with hy
        · rw [hy, hold]
        · rfl
      · simp only [moveEntry, treeFS, treeIsFile_data es ds x hD, hn, treeExists_single, hold,
          Option.isSome_none, Bool.and_false, Bool.false_eq_true, if_false,
          treeRename_data es ds x _ hD hn hold, if_true]
    | some old =>
      cases old with
      | file c' =>
        refine Or.inr (Or.inr ⟨putEntry es x none, ?_, mergeNode_file c _, ?_⟩)
        · intro y
          split_ifs with hy
          · rw [hy, lookupEntry_putEntry_same]
          · rw [lookupEntry_putEntry_ne _ _ _ _ (Ne.symm hy)]
        · have hD₁ : lookupEntry (putEntry es x none) "Data" = some (.dir ds) := by
            rw [lookupEntry_putEntry_ne _ _ _ _ hx, hD]
          have hold₁ : lookupEntry (putEntry es x none) x = none :=
            lookupEntry_putEntry_same es x none
          simp only [moveEntry, treeFS, treeIsFile_data es ds x hD, hn, treeExists_single, hold,
            Option.isSome_some, Bool.and_self, if_true, treeRemove_file es x c' hold,
            treeRename_data _ ds x _ hD₁ hn hold₁, Bool.not_true, Bool.or_false]
      | dir d =>
        refine Or.inl ⟨c, d, rfl, rfl, ?_⟩
        simp only [moveEntry, treeFS, treeIsFile_data es ds x hD, hn, treeExists_single, hold,
          Option.isSome_some, Bool.and_self, if_true, treeRemove_dir es d x hold,
          treeRename_exists es x _ hold, Bool.false_eq_true, if_false,
          treeCopyDir_file es ds x c hD hn, Bool.not_false, Bool.or_true]
  | dir s =>
    cases hold : lookupEntry es x with
    | none =>
      refine Or.inr (Or.inr ⟨es, ?_, mergeNode_none _, ?_⟩)
      · intro y
        split_ifs with hy
        · rw [hy, hold]
        · rfl
      · simp only [moveEntry, treeFS, treeIsFile_data es ds x hD, hn, Bool.false_and,
          Bool.false_eq_true, if_false, treeRename_data es ds x _ hD hn hold, if_true]
    | some old =>
      refine Or.inr (Or.inl ⟨s, old, rfl, rfl, ?_⟩)
      simp only [moveEntry, treeFS, treeIsFile_data es ds x hD, hn, Bool.false_and,
        Bool.false_eq_true, if_false, treeRename_exists es x old hold,
        treeCopyDir_data es ds s x hD hn, Bool.not_true, Bool.or_false, hold]

theorem moveEntry_tree (game : List (String × Node)) (es ds : List (String × Node))
    (x : String) (node : Node) (err : Bool) (hx : x ≠ "Data")
    (hD : lookupEntry es "Data" = some (.dir ds)) (hn : lookupEntry ds x = some node) :
    ∃ es' ds' err', moveEntry (treeFS game) (.dir es, err) x = (.dir es', err') ∧
      lookupEntry es' "Data" = some (.dir ds') ∧
      (∀ y, y ≠ x → lookupEntry ds' y = lookupEntry ds y) ∧
      (∀ y, y ≠ x → y ≠ "Data" → lookupEntry es' y = lookupEntry es y) ∧
      (err = true → err' = true) ∧
      (err' = false → lookupEntry es' x = some (mergeNode node (lookupEntry es x))) := by
  rcases moveEntry_tree_cases game es ds x node err hx hD hn with
    ⟨c, d, _, _, hmove⟩ | ⟨s, old, _, _, hmove⟩ | ⟨es₁, hes₁, hmerge, hmove⟩
  · exact ⟨es, ds, true, hmove, hD, fun _ _ => rfl, fun _ _ _ => rfl, fun _ => rfl,
      fun h => absurd h (by simp)⟩
  · refine ⟨_, ds, err, hmove, ?_, fun _ _ => rfl, ?_, id, fun _ => ?_⟩
    · rw [lookupEntry_putEntry_ne _ _ _ _ hx, hD]
    · intro y hy _
      rw [lookupEntry_putEntry_ne _ _ _ _ (Ne.symm hy)]
    · rw [lookupEntry_putEntry_same]
  · refine ⟨_, putEntry ds x none, err, hmove, ?_, ?_, ?_, id, fun _ => ?_⟩
    · rw [lookupEntry_putEntry_ne _ _ _ _ hx, lookupEntry_putEntry_same]
    · intro y hy
      rw [lookupEntry_putEntry_ne _ _ _ _ (Ne.symm hy)]
    · intro y hy hyD
      rw [lookupEntry_putEntry_ne _ _ _ _ (Ne.symm hy),
        lookupEntry_putEntry_ne _ _ _ _ (Ne.symm hyD), hes₁ y, if_neg hy]
    · rw [lookupEntry_putEntry_same, hmerge]

theorem foldl_moveEntry_tree (game : List (String × Node)) (names : List String) :
    ∀ (es ds : List (String × Node)) (err : Bool), names.Nodup → "Data" ∉ names →
      lookupEntry es "Data" = some (.dir ds) →
      (∀ x ∈ names, ∃ node, lookupEntry ds x = some node) →
      ∃ es' ds' err', names.foldl (moveEntry (treeFS game)) (.dir es, err) = (.dir es', err') ∧
        lookupEntry es' "Data" = some (.dir ds') ∧
        (∀ y, y ∉ names → y ≠ "Data" → lookupEntry es' y = lookupEntry es y) ∧
        (err = true → err' = true) ∧
        (err' = false → ∀ x ∈ names, ∀ node, lookupEntry ds x = some node →
          lookupEntry es' x = some (mergeNode node (lookupEntry es x))) := by
  induction names with
  | nil =>
    intro es ds err _ _ hD _
    exact ⟨es, ds, err, rfl, hD, fun _ _ _ => rfl, id, fun _ x hx => absurd hx (List.not_mem_nil x)⟩
  | cons x rest ih =>
    intro es ds err hnodup hdata hD hall
    rw [List.nodup_cons] at hnodup
    rw [List.mem_cons, not_or] at hdata
    obtain ⟨node, hnode⟩ := hall x (List.mem_cons_self _ _)
    obtain ⟨es₁, ds₁, err₁, hmove, hD₁, hds₁, hes₁, herr₁, hx₁⟩ :=
      moveEntry_tree game es ds x node err (Ne.symm hdata.1) hD hnode
    have hne : ∀ y ∈ rest, y ≠ x := fun y hy hyx => hnodup.1 (hyx ▸ hy)
    have hneD : ∀ y ∈ rest, y ≠ "Data" := fun y hy hyD => hdata.2 (hyD ▸ hy)
    have hall₁ : ∀ y ∈ rest, ∃ node, lookupEntry ds₁ y = some node := by
      intro y hy
      rw [hds₁ y (hne y hy)]
      exact hall y (List.mem_cons_of_mem _ hy)
    obtain ⟨es', ds', err', hfold, hD', hframe, herr', hres⟩ :=
      ih es₁ ds₁ err₁ hnodup.2 hdata.2 hD₁ hall₁
    refine ⟨es', ds', err', ?_, hD', ?_, fun h => herr' (herr₁ h), ?_⟩
    · rw [List.foldl_cons, hmove, hfold]
    · intro y hy hyD
      rw [List.mem_cons, not_or] at hy
      rw [hframe y hy.2 hyD, hes₁ y hy.1 hyD]
    · intro hfalse z hz znode hznode
      have herr₁' : err₁ = false := by
        cases h : err₁ with
        | false => rfl
        | true => rw [herr' h] at hfalse; cases hfalse
      rcases List.mem_cons.1 hz with rfl | hz
      · rw [hframe z hnodup.1 (Ne.symm hdata.1), hx₁ herr₁']
        rw [hnode] at hznode
        cases hznode
        rfl
      · have h₁ : lookupEntry ds₁ z = some znode := by rw [hds₁ z (hne z hz), hznode]
        rw [hres hfalse z hz znode h₁, hes₁ z (hne z hz) (hneD z hz)]

theorem treeShellDelete_single (es : List (String × Node)) (x : String) :
    treeShellDelete (.dir es) [[x]] = (.dir (putEntry es x none), (lookupEntry es x).isSome) := by
  simp only [treeShellDelete, List.foldl_cons, List.foldl_nil, update_single, treeExists_single,
    Bool.true_and]

theorem treeEntryList_data (es ds : List (String × Node))
    (hD : lookupEntry es "Data" = some (.dir ds)) :
    treeEntryList (.dir es) ["Data"] = ds.map Prod.fst := by
  simp only [treeEntryList, get_single, hD]

/-- The lookup in a merge of two listings: the source entry merged onto the target entry
of its name, or the target entry when the source has none of that name. -/
theorem lookupEntry_mergeEntries (source : List (String × Node)) :
    ∀ (target : List (String × Node)) (y : String), (source.map Prod.fst).Nodup →
      lookupEntry (mergeEntries source target) y =
        match lookupEntry source y with
        | some node => some (mergeNode node (lookupEntry target y))
        | none => lookupEntry target y := by
  induction source with
  | nil => intro target y _; simp [mergeEntries, lookupEntry]
  | cons e rest ih =>
    intro target y hnodup
    obtain ⟨n, v⟩ := e
    rw [List.map_cons, List.nodup_cons] at hnodup
    rw [mergeEntries, ih _ y hnodup.2]
    by_cases hy : n = y
    · subst hy
      rw [lookupEntry_eq_none rest n hnodup.1, lookupEntry_putEntry_same]
      simp [lookupEntry]
    · rw [lookupEntry_putEntry_ne _ _ _ _ hy]
      simp [lookupEntry, hy]

/-- C1 (amended): after exit code 0 or 10, when no entry of Data is itself called Data
and no file operation raised `errorOccured`, every entry of Data other than
NexusClientCLI.log is found in the mod directory under its name, with the content it had
under Data: a file replaces a file of that name, a directory merges into a directory of
that name and takes the place of a file of that name; the Data directory is gone, so is
NexusClientCLI.log, and the other entries of the mod directory are unchanged. -/
theorem finalize_moves_data (game mod dataEntries : List (String × Node)) (exitCode : Nat)
    (hcode : exitCode = 0 ∨ exitCode = 10)
    (hdata : lookupEntry mod "Data" = some (.dir dataEntries))
    (hnodup : (dataEntries.map Prod.fst).Nodup)
    (hnested : "Data" ∉ dataEntries.map Prod.fst)
    (hok : (finalize (treeFS game) (.dir mod) exitCode).errorOccured = false) :
    (∀ name node, (name, node) ∈ dataEntries → name ≠ "NexusClientCLI.log" →
      ∃ now, (finalize (treeFS game) (.dir mod) exitCode).fs.get [name] = some now ∧
        now = mergeNode node (lookupEntry mod name) ∧
        (∀ c, node = .file c → now = .file c) ∧
        (lookupEntry mod name = none → now = node) ∧
        (∀ s c, node = .dir s → lookupEntry mod name = some (.file c) → now = .dir s) ∧
        (∀ s d, node = .dir s → lookupEntry mod name = some (.dir d) →
          now = .dir (mergeEntries s d))) ∧
    (finalize (treeFS game) (.dir mod) exitCode).fs.get ["Data"] = none ∧
    (finalize (treeFS game) (.dir mod) exitCode).fs.get ["NexusClientCLI.log"] = none ∧
    (∀ name, name ∉ dataEntries.map Prod.fst → name ≠ "Data" → name ≠ "NexusClientCLI.log" →
      (finalize (treeFS game) (.dir mod) exitCode).fs.get [name] = lookupEntry mod name) := by
  obtain ⟨es', ds', err', hfold, hD', hframe, _, hres⟩ :=
    foldl_moveEntry_tree game (dataEntries.map Prod.fst) mod dataEntries false hnodup hnested
      hdata (fun x hx => lookupEntry_isSome_of_mem dataEntries x hx)
  have hnames : (treeFS game).entryList (.dir mod) ["Data"] = dataEntries.map Prod.fst :=
    treeEntryList_data mod dataEntries hdata
  have hdel : (treeFS game).shellDelete (.dir es') [["Data"]]
      = (.dir (putEntry es' "Data" none), true) := by
    show treeShellDelete (.dir es') [["Data"]] = _
    rw [treeShellDelete_single, hD']
    rfl
  have herr : err' = false := by
    simp only [finalize, if_pos hcode, hnames, hfold, hdel, Bool.not_true, Bool.or_false] at hok
    cases herr : err' with
    | false => rfl
    | true => simp [herr] at hok
  subst herr
  have hfs : (finalize (treeFS game) (.dir mod) exitCode).fs
      = .dir (putEntry (putEntry es' "Data" none) "NexusClientCLI.log" none) := by
    simp only [finalize, if_pos hcode, hnames, hfold, hdel, Bool.not_true, Bool.or_false,
      Bool.false_eq_true, if_false]
    show (treeShellDelete _ _).1 = _
    rw [treeShellDelete_single]
  have hget : ∀ name, name ≠ "Data" → name ≠ "NexusClientCLI.log" →
      (finalize (treeFS game) (.dir mod) exitCode).fs.get [name] = lookupEntry es' name := by
    intro name h1 h2
    rw [hfs, get_single, lookupEntry_putEntry_ne _ _ _ _ (Ne.symm h2),
      lookupEntry_putEntry_ne _ _ _ _ (Ne.symm h1)]
  refine ⟨?_, ?_, ?_, ?_⟩
  rotate_left 2
  · rw [hfs, get_single, lookupEntry_putEntry_same]
  · intro name hname hneD hlog
    rw [hget name hneD hlog, hframe name hname hneD]
  · intro name node hmem hlog
    have hname : name ∈ dataEntries.map Prod.fst := List.mem_map.2 ⟨(name, node), hmem, rfl⟩
    have hneD : name ≠ "Data" := fun h => hnested (h ▸ hname)
    refine ⟨mergeNode node (lookupEntry mod name), ?_, rfl, ?_, ?_, ?_, ?_⟩
    · rw [hget name hneD hlog]
      exact hres rfl name hname node (lookupEntry_of_mem dataEntries name node hnodup hmem)
    · rintro c rfl
      exact mergeNode_file c _
    · intro h
      rw [h, mergeNode_none]
    · rintro s c rfl h
      rw [h, mergeNode_dir_file]
    · rintro s d rfl h
      rw [h, mergeNode_dir_dir]
  · rw [hfs, get_single]
    by_cases h : "NexusClientCLI.log" = "Data"
    · exact absurd h (by decide)
    · rw [lookupEntry_putEntry_ne _ _ _ _ h, lookupEntry_putEntry_same]

/-- The run over `sampleMod`: a file, a directory that merges and a directory that is new. -/
theorem finalize_moves_data_witness :
    (finalize (treeFS []) sampleMod 0).fs.get ["plugin.esp"] = some (.file "new") ∧
    (finalize (treeFS []) sampleMod 0).fs.get ["meshes"]
      = some (.dir [("b.nif", .file "B"), ("a.nif", .file "A2"), ("c.nif", .file "C")]) ∧
    (finalize (treeFS []) sampleMod 0).fs.get ["textures"]
      = some (.dir [("t.dds", .file "T")]) ∧
    (finalize (treeFS []) sampleMod 0).fs.get ["Data"] = none := by
  obtain ⟨h, hD, _, _⟩ := finalize_moves_data []
    [("Data", .dir [("plugin.esp", .file "new"),
                    ("meshes", .dir [("a.nif", .file "A2"), ("b.nif", .file "B")]),
                    ("textures", .dir [("t.dds", .file "T")])]),
     ("plugin.esp", .file "old"),
     ("meshes", .dir [("a.nif", .file "A1"), ("c.nif", .file "C")]),
     ("NexusClientCLI.log", .file "log")]
    [("plugin.esp", .file "new"),
     ("meshes", .dir [("a.nif", .file "A2"), ("b.nif", .file "B")]),
     ("textures", .dir [("t.dds", .file "T")])]
    0 (Or.inl rfl) rfl (by decide) (by decide) (by decide)
  refine ⟨?_, ?_, ?_, hD⟩
  · obtain ⟨now, hnow, heq, _⟩ := h "plugin.esp" (.file "new") (by simp) (by decide)
    exact hnow.trans (congrArg some heq)
  · obtain ⟨now, hnow, heq, _⟩ := h "meshes"
      (.dir [("a.nif", .file "A2"), ("b.nif", .file "B")]) (by simp) (by decide)
    exact hnow.trans (congrArg some heq)
  · obtain ⟨now, hnow, heq, _⟩ := h "textures" (.dir [("t.dds", .file "T")]) (by simp)
      (by decide)
    exact hnow.trans (congrArg some heq)

/-- C1 as stated fails in two runs with exit code 0 in which no file operation fails: a
directory called Data directly inside Data is not found in the mod directory afterwards
(its content is merged into the Data directory, which is then deleted), and a file
called NexusClientCLI.log directly inside Data is moved up and then deleted. -/
theorem finalize_loses_entries :
    (nestedDataMod.get ["Data", "Data"] = some (.dir [("plugin.esp", .file "P")]) ∧
      (finalize (treeFS []) nestedDataMod 0).errorOccured = false ∧
      (finalize (treeFS []) nestedDataMod 0).fs.get ["Data"] = none ∧
      (finalize (treeFS []) nestedDataMod 0).fs = .dir []) ∧
    (logInDataMod.get ["Data", "NexusClientCLI.log"] = some (.file "L") ∧
      (finalize (treeFS []) logInDataMod 0).errorOccured = false ∧
      (finalize (treeFS []) logInDataMod 0).fs.get ["NexusClientCLI.log"] = none ∧
      (finalize (treeFS []) logInDataMod 0).fs = .dir [("plugin.esp", .file "P")]) := by
  refine ⟨⟨rfl, rfl, rfl, rfl⟩, ⟨rfl, rfl, rfl, rfl⟩⟩

end InstallerNCC
